import Mathlib

/-!
Shallow embedding of `src/item-collection.ts` (`ItemCollection` class) and
proofs about its specified behavior.

Modeling conventions:
* Items (`T extends Record<string, any>`) are modeled as association lists of
  string attributes.  All identity-based operations go through the identity
  attribute (`idPropName`), whose values are strings here.
* JS `Map` and `Set` preserve insertion order, so they are modeled as
  association lists resp. duplicate-free lists with order-preserving
  `set`/`add`/`delete` operations.
* JS numbers used as tag-cardinality values can be a natural number, Infinity,
  or (after a JSON round trip) null; they are modeled by `JsCard` together
  with the JS coercion rules used in the comparisons that occur in the source.
* Fallible code (JS `throw`) is modeled with `Except Unit`.
* The property-index cache (`#indexesByProperty`) is modeled by direct
  recomputation: the source rebuilds a property index whenever it is consulted
  and absent, and the identity index is rebuilt after every structural
  mutation, so every consulted index equals the recomputation from the
  current item list.
* The external search engine and the pub/sub notifier are out of scope
  (narrow external collaborators); `publish` flags have no state effect.
-/

namespace ItemCollection

/-- Model of an item: an association list of named string attributes. -/
abbrev Item := List (String × String)

/-- Model of JS property access `item[p]` (`undefined` becomes `none`). -/
def getProp (it : Item) (p : String) : Option String :=
  (it.find? (fun kv => kv.1 == p)).map (fun kv => kv.2)

/-- Input to `add`/`normalizeFn`: either a raw string or an item object. -/
inductive JSInput where
  | str (s : String)
  | obj (it : Item)
deriving DecidableEq

/-- JS number used as a tag cardinality: a natural, `Infinity`, or `null`
(the value `null` appears after a JSON round trip of `Infinity`). -/
inductive JsCard where
  | num (n : Nat)
  | inf
  | null
deriving DecidableEq

/-- Lookup in an insertion-ordered string-keyed map (JS `Map.get`). -/
def mapGet {α : Type} (m : List (String × α)) (k : String) : Option α :=
  (m.find? (fun kv => kv.1 == k)).map (fun kv => kv.2)

/-- Key-membership test in a string-keyed map (JS `Map.has`). -/
def mapHas {α : Type} (m : List (String × α)) (k : String) : Bool :=
  m.any (fun kv => kv.1 == k)

/-- JS `Map.set`: overwrite in place when the key exists, else append. -/
def mapSet {α : Type} (m : List (String × α)) (k : String) (v : α) :
    List (String × α) :=
  if m.any (fun kv => kv.1 == k) then
    m.map (fun kv => if kv.1 == k then (k, v) else kv)
  else m ++ [(k, v)]

/-- JS `Set.add`: append unless already a member (insertion order kept). -/
def setAdd (s : List Nat) (x : Nat) : List Nat :=
  if x ∈ s then s else s ++ [x]

/-- JS `Set.delete`: remove the element, keeping the order of the rest. -/
def setDel (s : List Nat) (x : Nat) : List Nat :=
  s.filter (fun y => y ≠ x)

/-- The mutable instance state of one `ItemCollection`, with the source's
default field values.  `sortFn = none` stands for the initial constant-zero
comparator and `normalizeFn = none` for the initial string-to-object
normalizer (both are genuine function values in the source, never absent). -/
structure Collection where
  items : List Item := []
  activeIndex : Option Int := none
  allowNextPrevCycle : Bool := false
  cardinality : Option Nat := none
  unique : Bool := true
  idPropName : String := "id"
  tagConfigs : List (String × JsCard) := []
  tags : List (String × List Nat) := []
  allowUnconfiguredTags : Bool := true
  sortFn : Option (Item → Item → Int) := none
  normalizeFn : Option (JSInput → Item) := none

/-- The default `#normalizeFn`: convert a string to an id-keyed object
(reading the instance's current `idPropName`), pass anything else through. -/
def defaultNormalize (idPropName : String) : JSInput → Item
  | .str s => [(idPropName, s)]
  | .obj it => it

/-- Apply the configured normalizer, or the default one. -/
def normalizeOf (c : Collection) (x : JSInput) : Item :=
  match c.normalizeFn with
  | some f => f x
  | none => defaultNormalize c.idPropName x

/-- Source `findAllIndexesBy`, with the consulted property index replaced by
its recomputation (the index invariant): the ascending list of positions
whose `property` attribute equals `value`.  A JS-`undefined` lookup value
(`none`) finds nothing, because positions lacking the property are never
put into the index. -/
def findAllIndexesBy (c : Collection) (property : String) (value : Option String) :
    List Nat :=
  match value with
  | none => []
  | some v =>
    (List.range c.items.length).filter
      (fun i => getProp (c.items.getD i []) property == some v)

/-- Source `findIndexBy` (`-1` becomes `none`). -/
def findIndexBy (c : Collection) (property : String) (value : Option String) :
    Option Nat :=
  (findAllIndexesBy c property value).head?

/-- Source `exists` as invoked from `add` with argument `item[idPropName]`:
when the item has no identity attribute the call receives `undefined`,
which is not a string, and `idOrItem[this.#idPropName]` then throws a
`TypeError`. -/
def existsVal (c : Collection) (idVal : Option String) : Except Unit Bool :=
  match idVal with
  | none => .error ()
  | some v => .ok (findIndexBy c c.idPropName (some v)).isSome

/-- Source `sort`: JS `toSorted` is a stable sort placing `a` before `b`
when `comparator(a, b) <= 0`, modeled by stable insertion sort.  The
source's `if (sortFn)` test always sees a function value (the field is
initialized to a constant-zero comparator and `configure` only ever assigns
functions), so the failure branch is dead and `sort` always returns `true`. -/
def sortOp (c : Collection) (fOpt : Option (Item → Item → Int)) :
    Collection × Bool :=
  let f := fOpt.getD (c.sortFn.getD (fun _ _ => 0))
  ({ c with items := List.insertionSort (fun a b => f a b ≤ 0) c.items }, true)

/-- JS comparison `this.size >= this.#cardinality`: the collection-level
cardinality is a natural or `Infinity` (modeled by `none`), and no finite
size reaches `Infinity`. -/
def sizeGeCardinality (size : Nat) (card : Option Nat) : Bool :=
  match card with
  | none => false
  | some n => size ≥ n

/-- Source `add(item, autoSort)`.  The only falsy `JSInput` is the empty
string; the searchable re-indexing side effect is out of scope. -/
def add (c : Collection) (input : JSInput) (autoSort : Bool) :
    Except Unit (Collection × Bool) :=
  if input = .str "" then .ok (c, false)
  else if sizeGeCardinality c.items.length c.cardinality then .ok (c, false)
  else
    match (if c.unique then existsVal c (getProp (normalizeOf c input) c.idPropName)
           else .ok false) with
    | .error e => .error e
    | .ok true => .ok (c, false)
    | .ok false =>
      if autoSort then
        .ok ((sortOp { c with items := c.items ++ [normalizeOf c input] } none).1, true)
      else
        .ok ({ c with items := c.items ++ [normalizeOf c input] }, true)

/-- The `for` loop of `addMany`: add each item without per-item sorting,
threading the success count. -/
def addManyLoop (c : Collection) (inputs : List JSInput) (added : Nat) :
    Except Unit (Collection × Nat) :=
  match inputs with
  | [] => .ok (c, added)
  | it :: rest =>
    match add c it false with
    | .error e => .error e
    | .ok (c2, ok) => addManyLoop c2 rest (if ok then added + 1 else added)

/-- Source `addMany`: add every item without per-item sorting, then sort once
if anything was added. -/
def addMany (c : Collection) (inputs : List JSInput) :
    Except Unit (Collection × Nat) :=
  match addManyLoop c inputs 0 with
  | .error e => .error e
  | .ok (c2, added) => .ok (if added > 0 then (sortOp c2 none).1 else c2, added)

/-- Source `patch`: overwrite every position whose identity value matches the
incoming item's identity value; report whether any position was patched. -/
def patch (c : Collection) (item : Item) : Collection × Bool :=
  let idxs := findAllIndexesBy c c.idPropName (getProp item c.idPropName)
  ({ c with items := idxs.foldl (fun acc i => acc.set i item) c.items },
   !idxs.isEmpty)

/-- Source `#updateTagsOnRemove`: drop the removed index from every tag set,
then rebuild each set with the later positions shifted down by one. -/
def updateTagsOnRemove (tags : List (String × List Nat)) (removedIndex : Nat) :
    List (String × List Nat) :=
  tags.map (fun kv =>
    let tagSet := setDel kv.2 removedIndex
    (kv.1,
     tagSet.foldl
       (fun acc idx => setAdd acc (if idx > removedIndex then idx - 1 else idx))
       []))

/-- Source `removeAt`: splice the item out, adjust the active index against
the new size, and remap every tag set. -/
def removeAt (c : Collection) (index : Nat) : Collection × Bool :=
  if index ≥ c.items.length then (c, false)
  else
    let items1 := c.items.eraseIdx index
    let newActive : Option Int :=
      match c.activeIndex with
      | none => none
      | some a =>
        if (index : Int) = a then
          if items1.length > 0 then some (Int.tmod index items1.length) else none
        else if (index : Int) < a then some (a - 1)
        else some a
    ({ c with
        items := items1
        activeIndex := newActive
        tags := updateTagsOnRemove c.tags index }, true)

/-- The member-shift rule of `#updateTagsOnMove` for one remaining index. -/
def moveRemapMember (fromIndex toIndex idx : Nat) : Nat :=
  if fromIndex < toIndex then
    if idx > fromIndex ∧ idx ≤ toIndex then idx - 1 else idx
  else
    if idx ≥ toIndex ∧ idx < fromIndex then idx + 1 else idx

/-- Source `#updateTagsOnMove`: per tag, remember whether the source position
was tagged, drop it, shift the remaining members, and finally re-add the
target position when it was tagged. -/
def updateTagsOnMove (tags : List (String × List Nat)) (fromIndex toIndex : Nat) :
    List (String × List Nat) :=
  tags.map (fun kv =>
    let wasTagged := fromIndex ∈ kv.2
    let tagSet := setDel kv.2 fromIndex
    let newTagSet :=
      tagSet.foldl (fun acc idx => setAdd acc (moveRemapMember fromIndex toIndex idx)) []
    (kv.1, if wasTagged then setAdd newTagSet toIndex else newTagSet))

/-- Source `move`: splice the item out of `fromIndex`, splice it back in at
`toIndex`, remap the active index, and remap every tag set. -/
def move (c : Collection) (fromIndex toIndex : Nat) : Collection × Bool :=
  if fromIndex ≥ c.items.length ∨ toIndex ≥ c.items.length ∨ fromIndex = toIndex then
    (c, false)
  else
    let item := c.items.getD fromIndex []
    let items1 := List.insertIdx toIndex item (c.items.eraseIdx fromIndex)
    let newActive : Option Int :=
      match c.activeIndex with
      | none => none
      | some a =>
        if a = (fromIndex : Int) then some (toIndex : Int)
        else if (fromIndex : Int) < a ∧ a ≤ (toIndex : Int) then some (a - 1)
        else if (toIndex : Int) ≤ a ∧ a < (fromIndex : Int) then some (a + 1)
        else some a
    ({ c with
        items := items1
        activeIndex := newActive
        tags := updateTagsOnMove c.tags fromIndex toIndex }, true)

/-- Source `setActiveIndex`: JS `%` is the truncated remainder (`Int.tmod`),
so a negative argument yields a non-positive remainder. -/
def setActiveIndex (c : Collection) (index : Int) : Collection :=
  { c with activeIndex :=
      if c.items.length > 0 then some (Int.tmod index c.items.length) else none }

/-- Source `clear`: empty the items, unset the pointer, and empty (but keep)
every tag entry; tag configurations are untouched. -/
def clear (c : Collection) : Collection :=
  { c with
      items := []
      activeIndex := none
      tags := c.tags.map (fun kv => (kv.1, [])) }

/-- Source `#assertAndInitializeTag`: create the missing tag set (throwing
when unconfigured tags are disallowed) and backfill a missing configuration
with unbounded cardinality. -/
def assertAndInitializeTag (c : Collection) (tagName : String) :
    Except Unit Collection :=
  if mapHas c.tags tagName then .ok c
  else if !c.allowUnconfiguredTags then .error ()
  else if mapHas c.tagConfigs tagName then
    .ok { c with tags := mapSet c.tags tagName [] }
  else
    .ok { c with
           tags := mapSet c.tags tagName []
           tagConfigs := mapSet c.tagConfigs tagName .inf }

/-- JS comparison `tagSet.size >= config.cardinality`: `null` coerces to `0`
(so the test always holds) and nothing is `>= Infinity`. -/
def sizeGeCard (size : Nat) (card : JsCard) : Bool :=
  match card with
  | .num n => size ≥ n
  | .inf => false
  | .null => true

/-- Source `applyTagByIndex`.  When the tag set exists but has no
configuration entry, the JS capacity test compares against `undefined`,
which is false. -/
def applyTagByIndex (c : Collection) (index : Nat) (tagName : String) :
    Except Unit (Collection × Bool) :=
  if index ≥ c.items.length then .ok (c, false)
  else
    match assertAndInitializeTag c tagName with
    | .error e => .error e
    | .ok c1 =>
      if (match mapGet c1.tagConfigs tagName with
          | some card => sizeGeCard ((mapGet c1.tags tagName).getD []).length card
          | none => false)
          && !(((mapGet c1.tags tagName).getD []).contains index) then
        .ok (c1, false)
      else
        .ok ({ c1 with
                tags := mapSet c1.tags tagName
                  (setAdd ((mapGet c1.tags tagName).getD []) index) }, true)

/-- Source `applyTagByIndexes`: apply one index at a time, stopping at the
first failure; the result is the last single-application result (`false` for
an empty index list). -/
def applyTagByIndexes (c : Collection) (indexes : List Nat) (tagName : String) :
    Except Unit (Collection × Bool) :=
  match indexes with
  | [] => .ok (c, false)
  | index :: rest =>
    match applyTagByIndex c index tagName with
    | .error e => .error e
    | .ok (c2, r) =>
      if r && !rest.isEmpty then applyTagByIndexes c2 rest tagName
      else .ok (c2, r)

/-- JS comparison `config.cardinality < tagSet.size` (`null` coerces to 0). -/
def jsCardLtSize (card : JsCard) (size : Nat) : Bool :=
  match card with
  | .num n => n < size
  | .inf => false
  | .null => 0 < size

/-- Source `#enforceTagCardinality`: sort the members ascending and evict
from the high end while over the limit; the surviving members keep their
insertion order inside the set. -/
def enforceTagCardinality (tagSet : List Nat) (card : JsCard) : List Nat :=
  if !(jsCardLtSize card tagSet.length) then tagSet
  else
    let keepCount : Nat :=
      match card with
      | .num n => n
      | .inf => tagSet.length
      | .null => 0
    let kept := (List.insertionSort (fun a b => a ≤ b) tagSet).take keepCount
    tagSet.filter (fun x => kept.contains x)

/-- The tail of `configureTag` once a missing entry has been initialized:
overwrite the configuration with the new cardinality and, when the new limit
is below the current membership size, enforce it.  A missing tag set (while
the configuration entry exists) makes the source dereference
`this.#tags.get(tagName)!.size` on `undefined`, which throws. -/
def configureTagCore (c1 : Collection) (tagName : String) (card : JsCard) :
    Except Unit (Collection × Bool) :=
  match mapGet c1.tags tagName with
  | none => .error ()
  | some tagSet =>
    if jsCardLtSize card tagSet.length then
      .ok ({ c1 with
              tagConfigs := mapSet c1.tagConfigs tagName card
              tags := mapSet c1.tags tagName (enforceTagCardinality tagSet card) },
        true)
    else
      .ok ({ c1 with tagConfigs := mapSet c1.tagConfigs tagName card }, true)

/-- Source `configureTag`: initialize a missing entry with unbounded
cardinality and an empty set, then apply the new configuration. -/
def configureTag (c : Collection) (tagName : String) (card : JsCard) :
    Except Unit (Collection × Bool) :=
  if mapHas c.tagConfigs tagName then configureTagCore c tagName card
  else
    configureTagCore
      { c with
         tagConfigs := mapSet c.tagConfigs tagName .inf
         tags := mapSet c.tags tagName [] } tagName card

/-- The option record accepted by `configure` (the constructor-only
`searchable` option is out of scope; passing it to `configure` throws
unconditionally and changes nothing). -/
structure ConfigOptions where
  cardinality : Option (Option Nat) := none
  allowNextPrevCycle : Option Bool := none
  unique : Option Bool := none
  idPropName : Option String := none
  allowUnconfiguredTags : Option Bool := none
  tags : Option (List (String × JsCard)) := none
  sortFn : Option (Item → Item → Int) := none
  normalizeFn : Option (JSInput → Item) := none

/-- Source `configure`: apply each supplied option in source order.  The
`tags` option only records configurations into `#tagConfigs`; it neither
creates tag sets nor shrinks existing ones. -/
def configure (c : Collection) (o : ConfigOptions) : Collection :=
  let c := match o.cardinality with
    | some v => { c with cardinality := v }
    | none => c
  let c := match o.allowNextPrevCycle with
    | some v => { c with allowNextPrevCycle := v }
    | none => c
  let c := match o.unique with
    | some v => { c with unique := v }
    | none => c
  let c := match o.idPropName with
    | some v => { c with idPropName := v }
    | none => c
  let c := match o.allowUnconfiguredTags with
    | some v => { c with allowUnconfiguredTags := v }
    | none => c
  let c := match o.tags with
    | some ts =>
      { c with tagConfigs := ts.foldl (fun m kv => mapSet m kv.1 kv.2) c.tagConfigs }
    | none => c
  let c := match o.sortFn with
    | some f => { c with sortFn := some f }
    | none => c
  match o.normalizeFn with
  | some f => { c with normalizeFn := some f }
  | none => c

/-- Observable tag membership: `getIndexesByTag` returns the empty list both
for a missing tag and for an empty tag set. -/
def tagIndexes (c : Collection) (t : String) : List Nat :=
  (mapGet c.tags t).getD []

/-- A concrete three-item collection mirroring the repository's test fixture,
with tag "foo" on positions 0 and 1 and active position 1. -/
def abcFixture : Collection :=
  { items := [[("id", "a")], [("id", "b")], [("id", "c")]]
    activeIndex := some 1
    tags := [("foo", [0, 1])]
    tagConfigs := [("foo", JsCard.inf)] }

/-! ## Helper lemmas about the JS `Set`/`Map` models -/

theorem mem_setAdd {s : List Nat} {x q : Nat} : q ∈ setAdd s x ↔ q ∈ s ∨ q = x := by
  unfold setAdd
  split
  · next h =>
    constructor
    · exact Or.inl
    · rintro (hq | rfl)
      · exact hq
      · exact h
  · simp

theorem mem_setDel {s : List Nat} {x q : Nat} : q ∈ setDel s x ↔ q ∈ s ∧ q ≠ x := by
  simp [setDel]

theorem mem_foldl_setAdd (f : Nat → Nat) (q : Nat) :
    ∀ (l acc : List Nat),
      q ∈ l.foldl (fun acc idx => setAdd acc (f idx)) acc ↔
        q ∈ acc ∨ ∃ p ∈ l, f p = q := by
  intro l
  induction l with
  | nil => intro acc; simp
  | cons x xs ih =>
    intro acc
    rw [List.foldl_cons, ih, mem_setAdd]
    simp only [List.mem_cons]
    constructor
    · rintro ((hacc | rfl) | ⟨p, hp, rfl⟩)
      · exact Or.inl hacc
      · exact Or.inr ⟨x, Or.inl rfl, rfl⟩
      · exact Or.inr ⟨p, Or.inr hp, rfl⟩
    · rintro (hacc | ⟨p, (rfl | hp), rfl⟩)
      · exact Or.inl (Or.inl hacc)
      · exact Or.inl (Or.inr rfl)
      · exact Or.inr ⟨p, hp, rfl⟩

theorem mapGet_map_val {α β : Type} (g : α → β) (m : List (String × α)) (k : String) :
    mapGet (m.map (fun kv => (kv.1, g kv.2))) k = (mapGet m k).map g := by
  induction m with
  | nil => rfl
  | cons kv m ih =>
    by_cases h : kv.1 == k
    · simp [mapGet, List.find?_cons_of_pos, h]
    · simpa [mapGet, List.find?_cons_of_neg, h] using ih

/-- The member-shift rule of a move, written the way the specification states
it (with explicit direction guards), agrees with the source's rule whenever
`F ≠ T`. -/
theorem moveRemapMember_eq (F T p : Nat) (_hFT : F ≠ T) :
    moveRemapMember F T p =
      if F < T ∧ F < p ∧ p ≤ T then p - 1
      else if T < F ∧ T ≤ p ∧ p < F then p + 1
      else p := by
  unfold moveRemapMember
  split_ifs <;> omega

/-! ## C1: tag and pointer remapping on move -/

/-- C1: for every collection and in-range positions `F ≠ T`, `move F T`
succeeds, remaps every tag's membership set by the shift rule (drop `F`;
moving forward, each remaining member `F < p ≤ T` becomes `p - 1`; moving
backward, each remaining member `T ≤ p < F` becomes `p + 1`; other members
unchanged; finally `T` is a member exactly when `F` was), and remaps the
active pointer by the matching rule (`F ↦ T`; `F < a ≤ T` decrements;
`T ≤ a < F` increments; otherwise unchanged). -/
theorem move_remaps_tags_and_pointer (c : Collection) (F T : Nat)
    (hF : F < c.items.length) (hT : T < c.items.length) (hFT : F ≠ T) :
    (move c F T).2 = true ∧
    (∀ t s, mapGet c.tags t = some s →
      ∃ s2, mapGet (move c F T).1.tags t = some s2 ∧
        ∀ q, q ∈ s2 ↔
          ((F ∈ s ∧ q = T) ∨
            ∃ p, p ∈ s ∧ p ≠ F ∧
              q = if F < T ∧ F < p ∧ p ≤ T then p - 1
                  else if T < F ∧ T ≤ p ∧ p < F then p + 1
                  else p)) ∧
    (move c F T).1.activeIndex = c.activeIndex.map (fun a =>
      if a = (F : Int) then (T : Int)
      else if (F : Int) < a ∧ a ≤ (T : Int) then a - 1
      else if (T : Int) ≤ a ∧ a < (F : Int) then a + 1
      else a) := by
  have hguard : ¬(F ≥ c.items.length ∨ T ≥ c.items.length ∨ F = T) := by
    push_neg
    exact ⟨by omega, by omega, hFT⟩
  unfold move
  rw [if_neg hguard]
  refine ⟨rfl, ?_, ?_⟩
  · intro t s hs
    show ∃ s2, mapGet (updateTagsOnMove c.tags F T) t = some s2 ∧ _
    unfold updateTagsOnMove
    rw [mapGet_map_val
      (fun v =>
        let wasTagged := F ∈ v
        let tagSet := setDel v F
        let newTagSet :=
          tagSet.foldl (fun acc idx => setAdd acc (moveRemapMember F T idx)) []
        if wasTagged then setAdd newTagSet T else newTagSet), hs]
    refine ⟨_, rfl, ?_⟩
    intro q
    simp only
    constructor
    · intro hq
      by_cases hFs : F ∈ s
      · rw [if_pos hFs, mem_setAdd, mem_foldl_setAdd] at hq
        rcases hq with ((h0 | ⟨p, hp, rfl⟩) | rfl)
        · exact absurd h0 (List.not_mem_nil q)
        · rw [mem_setDel] at hp
          exact Or.inr ⟨p, hp.1, hp.2, moveRemapMember_eq F T p hFT⟩
        · exact Or.inl ⟨hFs, rfl⟩
      · rw [if_neg hFs, mem_foldl_setAdd] at hq
        rcases hq with (h0 | ⟨p, hp, rfl⟩)
        · exact absurd h0 (List.not_mem_nil q)
        · rw [mem_setDel] at hp
          exact Or.inr ⟨p, hp.1, hp.2, moveRemapMember_eq F T p hFT⟩
    · rintro (⟨hFs, rfl⟩ | ⟨p, hp, hpF, rfl⟩)
      · rw [if_pos hFs, mem_setAdd]
        exact Or.inr rfl
      · have hmem : moveRemapMember F T p ∈
            (setDel s F).foldl (fun acc idx => setAdd acc (moveRemapMember F T idx)) [] := by
          rw [mem_foldl_setAdd]
          exact Or.inr ⟨p, mem_setDel.mpr ⟨hp, hpF⟩, rfl⟩
        rw [moveRemapMember_eq F T p hFT] at hmem
        by_cases hFs : F ∈ s
        · rw [if_pos hFs, mem_setAdd]
          exact Or.inl hmem
        · rw [if_neg hFs]
          exact hmem
  · cases c.activeIndex with
    | none => rfl
    | some a =>
      show (if a = (F : Int) then some (T : Int)
        else if (F : Int) < a ∧ a ≤ (T : Int) then some (a - 1)
        else if (T : Int) ≤ a ∧ a < (F : Int) then some (a + 1)
        else some a) = _
      simp only [Option.map]
      split_ifs <;> rfl

/-- C1 witness: moving position 0 to position 2 in the concrete fixture
succeeds and maps the active pointer 1 to 0. -/
theorem move_remaps_tags_and_pointer_witness :
    (move abcFixture 0 2).2 = true ∧
    (move abcFixture 0 2).1.activeIndex = some 0 := by
  have h := move_remaps_tags_and_pointer abcFixture 0 2
    (by decide) (by decide) (by decide)
  refine ⟨h.1, ?_⟩
  rw [h.2.2]
  decide

/-! ## C2: tag remapping on removal -/

/-- C2: for every collection and in-range position `R`, `removeAt R` succeeds
and updates every tag's membership set by dropping `R`, shifting every
remaining member above `R` down by one, and keeping members below `R`
unchanged. -/
theorem removeAt_remaps_tags (c : Collection) (R : Nat) (hR : R < c.items.length) :
    (removeAt c R).2 = true ∧
    ∀ t s, mapGet c.tags t = some s →
      ∃ s2, mapGet (removeAt c R).1.tags t = some s2 ∧
        ∀ q, q ∈ s2 ↔ ((q < R ∧ q ∈ s) ∨ (R ≤ q ∧ q + 1 ∈ s)) := by
  have hguard : ¬(R ≥ c.items.length) := by omega
  unfold removeAt
  rw [if_neg hguard]
  refine ⟨rfl, ?_⟩
  intro t s hs
  show ∃ s2, mapGet (updateTagsOnRemove c.tags R) t = some s2 ∧ _
  unfold updateTagsOnRemove
  rw [mapGet_map_val
    (fun v =>
      (setDel v R).foldl
        (fun acc idx => setAdd acc (if idx > R then idx - 1 else idx)) []), hs]
  refine ⟨_, rfl, ?_⟩
  intro q
  rw [mem_foldl_setAdd]
  constructor
  · rintro (h0 | ⟨p, hp, rfl⟩)
    · exact absurd h0 (List.not_mem_nil q)
    · rw [mem_setDel] at hp
      obtain ⟨hps, hpne⟩ := hp
      by_cases hpR : p > R
      · rw [if_pos hpR]
        refine Or.inr ⟨by omega, ?_⟩
        rw [Nat.sub_add_cancel (by omega)]
        exact hps
      · rw [if_neg hpR]
        exact Or.inl ⟨by omega, hps⟩
  · rintro (⟨hlt, hq⟩ | ⟨hge, hq1⟩)
    · refine Or.inr ⟨q, mem_setDel.mpr ⟨hq, by omega⟩, ?_⟩
      rw [if_neg (by omega : ¬ q > R)]
    · refine Or.inr ⟨q + 1, mem_setDel.mpr ⟨hq1, by omega⟩, ?_⟩
      rw [if_pos (by omega : q + 1 > R)]
      omega

/-- C2 witness: removing position 0 from the moved fixture state leaves tag
"foo" on position 1 only, as in the repository's own test scenario. -/
theorem removeAt_remaps_tags_witness :
    (removeAt (move abcFixture 0 2).1 0).2 = true := by
  exact (removeAt_remaps_tags (move abcFixture 0 2).1 0 (by decide)).1

/-! ## C3: active-pointer invariant and `setActiveIndex` -/

/-- C3 counterexample: on the three-item fixture, `setActiveIndex (-1)`
stores the JS truncated remainder `-1`: the pointer ends up set to a negative
value rather than to `-1 mod 3 = 2`, so neither the claimed modulo result nor
the claimed range invariant holds. -/
theorem setActiveIndex_negative_counterexample :
    (setActiveIndex abcFixture (-1)).activeIndex = some (-1) ∧
    (setActiveIndex abcFixture (-1)).activeIndex ≠
      some (Int.emod (-1) (abcFixture.items.length : Int)) ∧
    ¬ (∀ a, (setActiveIndex abcFixture (-1)).activeIndex = some a →
        0 ≤ a ∧ a < (abcFixture.items.length : Int)) := by
  refine ⟨by decide, by decide, ?_⟩
  intro h
  have := h (-1) (by decide)
  omega

/-- C3 (amended): `setActiveIndex n` unsets the pointer on an empty
collection and otherwise stores the JS truncated remainder of `n` by the
size; for `n ≥ 0` that remainder is `n mod size`, which lies in `[0, size)`
(for negative `n` the stored value can be negative, as the counterexample
shows).  `removeAt` preserves the range invariant and unsets the pointer
when the collection becomes empty. -/
theorem activePointer_invariant (c : Collection) (n : Int) (R : Nat) :
    (c.items.length = 0 → (setActiveIndex c n).activeIndex = none) ∧
    (c.items.length > 0 →
      (setActiveIndex c n).activeIndex = some (Int.tmod n c.items.length)) ∧
    (c.items.length > 0 → 0 ≤ n →
      ∀ a, (setActiveIndex c n).activeIndex = some a →
        a = n % (c.items.length : Int) ∧ 0 ≤ a ∧ a < (c.items.length : Int)) ∧
    ((∀ a, c.activeIndex = some a → 0 ≤ a ∧ a < (c.items.length : Int)) →
      ∀ a, (removeAt c R).1.activeIndex = some a →
        0 ≤ a ∧ a < ((removeAt c R).1.items.length : Int)) ∧
    ((∀ a, c.activeIndex = some a → 0 ≤ a ∧ a < (c.items.length : Int)) →
      (removeAt c R).1.items.length = 0 → (removeAt c R).1.activeIndex = none) := by
  refine ⟨?_, ?_, ?_, ?_, ?_⟩
  · intro h0
    unfold setActiveIndex
    simp [h0]
  · intro hpos
    unfold setActiveIndex
    simp only
    rw [if_pos hpos]
  · intro hpos hn a ha
    unfold setActiveIndex at ha
    simp only at ha
    rw [if_pos hpos] at ha
    have hlen : (0 : Int) < (c.items.length : Int) := by exact_mod_cast hpos
    have htm : Int.tmod n c.items.length = n % (c.items.length : Int) :=
      Int.tmod_eq_emod hn (le_of_lt hlen)
    have h1 : a = Int.tmod n c.items.length := by
      injection ha with h
      exact h.symm
    refine ⟨by rw [h1, htm], ?_, ?_⟩
    · rw [h1, htm]
      exact Int.emod_nonneg n (by omega)
    · rw [h1]
      exact Int.tmod_lt_of_pos n hlen
  · intro hinv a ha
    unfold removeAt at ha
    by_cases hguard : R ≥ c.items.length
    · rw [if_pos hguard] at ha
      unfold removeAt
      rw [if_pos hguard]
      exact hinv a ha
    · rw [if_neg hguard] at ha
      unfold removeAt
      rw [if_neg hguard]
      simp only at ha ⊢
      rw [List.length_eraseIdx_of_lt (by omega)] at ha ⊢
      cases hact : c.activeIndex with
      | none => rw [hact] at ha; exact absurd ha (by simp)
      | some b =>
        have hb := hinv b hact
        rw [hact] at ha
        simp only at ha
        by_cases h1 : (R : Int) = b
        · rw [if_pos h1] at ha
          by_cases h2 : c.items.length - 1 > 0
          · rw [if_pos h2] at ha
            injection ha with ha
            subst ha
            constructor
            · exact Int.tmod_nonneg _ (by omega)
            · exact Int.tmod_lt_of_pos _ (by exact_mod_cast h2)
          · rw [if_neg h2] at ha
            exact absurd ha (by simp)
        · rw [if_neg h1] at ha
          by_cases h3 : (R : Int) < b
          · rw [if_pos h3] at ha
            injection ha with ha
            subst ha
            omega
          · rw [if_neg h3] at ha
            injection ha with ha
            subst ha
            omega
  · intro hinv hlen
    unfold removeAt at hlen ⊢
    by_cases hguard : R ≥ c.items.length
    · rw [if_pos hguard] at hlen ⊢
      simp only at hlen
      cases hact : c.activeIndex with
      | none => rfl
      | some b =>
        have hb := hinv b hact
        omega
    · rw [if_neg hguard] at hlen ⊢
      simp only at hlen ⊢
      rw [List.length_eraseIdx_of_lt (by omega)] at hlen
      cases hact : c.activeIndex with
      | none => rfl
      | some b =>
        have hb := hinv b hact
        dsimp only
        by_cases h1 : (R : Int) = b
        · rw [if_pos h1, List.length_eraseIdx_of_lt (by omega),
            if_neg (by omega : ¬ c.items.length - 1 > 0)]
        · exact absurd (by omega : (R : Int) = b) h1

/-- C3 witness: on the three-item fixture with active position 1,
`setActiveIndex 5` stores `5 mod 3 = 2`, inside `[0, 3)`, and `removeAt 0`
keeps the pointer in range. -/
theorem activePointer_invariant_witness :
    (setActiveIndex abcFixture 5).activeIndex = some 2 ∧
    (∀ a, (removeAt abcFixture 0).1.activeIndex = some a →
      0 ≤ a ∧ a < ((removeAt abcFixture 0).1.items.length : Int)) := by
  have h := activePointer_invariant abcFixture 5 0
  constructor
  · rw [h.2.1 (by decide)]
    decide
  · exact h.2.2.2.1 (by decide)

/-! ## C8: sort with no comparator -/

/-- Any list is sorted by a relation that holds everywhere, such as the
order induced by the constant-zero default comparator. -/
theorem sorted_of_forall {α : Type} {r : α → α → Prop} (h : ∀ a b, r a b) :
    ∀ l : List α, l.Sorted r := by
  intro l
  induction l with
  | nil => exact List.sorted_nil
  | cons x xs ih => exact List.pairwise_cons.mpr ⟨fun y _ => h x y, ih⟩

/-- Sorting with the default constant-zero comparator never reorders:
a stable sort of a list in which all pairs compare equal is the identity. -/
theorem sortOp_items_default (c : Collection) (h : c.sortFn = none) :
    (sortOp c none).1.items = c.items := by
  unfold sortOp
  rw [h]
  exact List.Sorted.insertionSort_eq
    (sorted_of_forall (fun _ _ => Int.le_refl 0) c.items)

/-- C8 counterexample: on the three-item fixture, whose comparator was never
configured, argument-less `sort` returns `true` — not failure as claimed —
while leaving the sequence unchanged. -/
theorem sort_no_comparator_counterexample :
    (sortOp abcFixture none).2 = true ∧
    (sortOp abcFixture none).1.items = abcFixture.items := by
  exact ⟨rfl, by decide⟩

/-- C8 (amended): calling `sort()` with no comparator argument on a
collection whose default comparator was never configured is a no-op on the
sequence, but it returns success (`true`), because the initial comparator
field already holds a constant-zero function and the failure branch of
`sort` is unreachable. -/
theorem sort_no_comparator_noop_success (c : Collection) (h : c.sortFn = none) :
    (sortOp c none).1.items = c.items ∧ (sortOp c none).2 = true := by
  refine ⟨?_, rfl⟩
  unfold sortOp
  rw [h]
  exact List.Sorted.insertionSort_eq
    (sorted_of_forall (fun _ _ => Int.le_refl 0) c.items)

/-- C8 witness: the amended statement instantiated on the fixture. -/
theorem sort_no_comparator_noop_success_witness :
    (sortOp abcFixture none).1.items = abcFixture.items ∧
    (sortOp abcFixture none).2 = true :=
  sort_no_comparator_noop_success abcFixture rfl

/-! ## C10: default normalization on add -/

/-- C10: with the default (never configured) normalizer and comparator, a
successful `add` of a string `s` appends exactly the id-keyed object
`{[idPropName]: s}`, whose identity attribute evaluates to `s`, while a
successful `add` of a non-string item appends that item unchanged. -/
theorem add_default_normalization (c : Collection)
    (hn : c.normalizeFn = none) (hs : c.sortFn = none) :
    (∀ s cr, add c (.str s) true = .ok (cr, true) →
      cr.items = c.items ++ [[(c.idPropName, s)]] ∧
      getProp [(c.idPropName, s)] c.idPropName = some s) ∧
    (∀ it cr, add c (.obj it) true = .ok (cr, true) →
      cr.items = c.items ++ [it]) := by
  have hnormS : ∀ s, normalizeOf c (.str s) = [(c.idPropName, s)] := by
    intro s
    unfold normalizeOf
    rw [hn]
    rfl
  have hnormO : ∀ it, normalizeOf c (.obj it) = it := by
    intro it
    unfold normalizeOf
    rw [hn]
    rfl
  constructor
  · intro s cr h
    unfold add at h
    rw [hnormS s] at h
    split at h
    · simp at h
    · split at h
      · simp at h
      · split at h
        · simp at h
        · simp at h
        · split at h
          · simp only [Except.ok.injEq, Prod.mk.injEq, and_true] at h
            subst h
            refine ⟨?_, by simp [getProp]⟩
            unfold sortOp
            dsimp only [Option.getD]
            rw [hs]
            exact List.Sorted.insertionSort_eq
              (sorted_of_forall (fun _ _ => Int.le_refl 0) _)
          · next hc => exact absurd rfl hc
  · intro it cr h
    unfold add at h
    rw [hnormO it] at h
    split at h
    · simp at h
    · split at h
      · simp at h
      · split at h
        · simp at h
        · simp at h
        · split at h
          · simp only [Except.ok.injEq, Prod.mk.injEq, and_true] at h
            subst h
            unfold sortOp
            dsimp only [Option.getD]
            rw [hs]
            exact List.Sorted.insertionSort_eq
              (sorted_of_forall (fun _ _ => Int.le_refl 0) _)
          · next hc => exact absurd rfl hc

/-- Observable projection of an `add`-style result: the new item list and
the returned flag. -/
def addResultItems (e : Except Unit (Collection × Bool)) :
    Option (List Item × Bool) :=
  match e with
  | .ok (c, b) => some (c.items, b)
  | .error _ => none

/-- C10 witness: adding the string "d" to the fixture succeeds and appends
exactly `{id: "d"}`. -/
theorem add_default_normalization_witness :
    addResultItems (add abcFixture (.str "d") true) =
      some (abcFixture.items ++ [[("id", "d")]], true) := by
  have hflag : (add abcFixture (.str "d") true).map (fun r => r.2) = .ok true := by
    rfl
  cases hres : add abcFixture (.str "d") true with
  | error e =>
    rw [hres] at hflag
    simp [Except.map] at hflag
  | ok p =>
    obtain ⟨cr, b⟩ := p
    rw [hres] at hflag
    simp only [Except.map, Except.ok.injEq] at hflag
    subst hflag
    have hmain := (add_default_normalization abcFixture rfl rfl).1 "d" cr hres
    simp [addResultItems, hmain.1, abcFixture]

/-! ## C9: patch -/

theorem length_foldl_set (item : Item) :
    ∀ (idxs : List Nat) (l : List Item),
      (idxs.foldl (fun acc j => acc.set j item) l).length = l.length := by
  intro idxs
  induction idxs with
  | nil => intro l; rfl
  | cons x xs ih =>
    intro l
    rw [List.foldl_cons, ih, List.length_set]

theorem getElem?_foldl_set (item : Item) :
    ∀ (idxs : List Nat) (l : List Item) (i : Nat),
      (idxs.foldl (fun acc j => acc.set j item) l)[i]? =
        if i ∈ idxs ∧ i < l.length then some item else l[i]? := by
  intro idxs
  induction idxs with
  | nil => intro l i; simp
  | cons x xs ih =>
    intro l i
    rw [List.foldl_cons, ih, List.length_set, List.getElem?_set]
    by_cases hxs : i ∈ xs ∧ i < l.length
    · rw [if_pos hxs, if_pos ⟨List.mem_cons_of_mem x hxs.1, hxs.2⟩]
    · rw [if_neg hxs]
      by_cases hxi : x = i
      · subst hxi
        by_cases hlen : x < l.length
        · rw [if_pos rfl, if_pos hlen, if_pos ⟨List.mem_cons_self x xs, hlen⟩]
        · rw [if_pos rfl, if_neg hlen, if_neg (by tauto),
            List.getElem?_eq_none (by omega)]
      · rw [if_neg hxi]
        by_cases hmem : i ∈ x :: xs ∧ i < l.length
        · rcases List.mem_cons.mp hmem.1 with h1 | h1
          · exact absurd h1.symm hxi
          · exact absurd ⟨h1, hmem.2⟩ hxs
        · rw [if_neg hmem]

/-- C9: for an item carrying identity value `v`, `patch item` keeps the
length, replaces in place exactly the positions whose identity attribute
equals `v` with the incoming item, leaves tag memberships and the active
pointer untouched, and returns `true` exactly when at least one position
matched. -/
theorem patch_replaces_matching (c : Collection) (item : Item) (v : String)
    (hv : getProp item c.idPropName = some v) :
    (patch c item).1.items.length = c.items.length ∧
    (∀ i, i < c.items.length →
      (patch c item).1.items[i]? =
        if getProp (c.items.getD i []) c.idPropName = some v then some item
        else c.items[i]?) ∧
    (patch c item).1.tags = c.tags ∧
    (patch c item).1.activeIndex = c.activeIndex ∧
    ((patch c item).2 = true ↔
      ∃ i, i < c.items.length ∧ getProp (c.items.getD i []) c.idPropName = some v) := by
  have hidx : ∀ i, i ∈ findAllIndexesBy c c.idPropName (getProp item c.idPropName) ↔
      i < c.items.length ∧ getProp (c.items.getD i []) c.idPropName = some v := by
    intro i
    rw [hv]
    unfold findAllIndexesBy
    rw [List.mem_filter, List.mem_range]
    simp
  refine ⟨?_, ?_, rfl, rfl, ?_⟩
  · exact length_foldl_set item _ c.items
  · intro i hi
    show (List.foldl (fun acc j => acc.set j item) c.items _)[i]? = _
    rw [getElem?_foldl_set]
    by_cases hm : getProp (c.items.getD i []) c.idPropName = some v
    · rw [if_pos ⟨(hidx i).mpr ⟨hi, hm⟩, hi⟩, if_pos hm]
    · rw [if_neg (fun hc => hm ((hidx i).mp hc.1).2), if_neg hm]
  · show (!(findAllIndexesBy c c.idPropName (getProp item c.idPropName)).isEmpty) = true ↔ _
    rw [Bool.not_eq_eq_eq_not]
    simp only [Bool.not_true, List.isEmpty_eq_false_iff_exists_mem]
    constructor
    · rintro ⟨i, hi⟩
      exact ⟨i, (hidx i).mp hi⟩
    · rintro ⟨i, hi⟩
      exact ⟨i, (hidx i).mpr hi⟩

/-- C9 witness: patching `{id: "b", x: "9"}` into the fixture succeeds and
leaves the length at 3. -/
theorem patch_replaces_matching_witness :
    (patch abcFixture [("id", "b"), ("x", "9")]).1.items.length = 3 ∧
    (patch abcFixture [("id", "b"), ("x", "9")]).2 = true := by
  have h := patch_replaces_matching abcFixture [("id", "b"), ("x", "9")] "b"
    (by decide)
  exact ⟨h.1, h.2.2.2.2.mpr ⟨1, by decide, by decide⟩⟩

/-! ## Map update lemmas -/

theorem mapGet_cons {α : Type} (kv : String × α) (m : List (String × α)) (k : String) :
    mapGet (kv :: m) k = if kv.1 == k then some kv.2 else mapGet m k := by
  by_cases h : kv.1 == k
  · simp [mapGet, List.find?_cons_of_pos, h]
  · simp [mapGet, List.find?_cons_of_neg, h]

theorem mapGet_eq_none_of_not_has {α : Type} (m : List (String × α)) (k : String)
    (h : ¬ mapHas m k = true) : mapGet m k = none := by
  unfold mapGet
  rw [List.find?_eq_none.mpr]
  · rfl
  · intro x hx hp
    exact h (List.any_eq_true.mpr ⟨x, hx, hp⟩)

theorem mapGet_replace_self {α : Type} (m : List (String × α)) (k : String) (v : α)
    (h : m.any (fun kv => kv.1 == k) = true) :
    mapGet (m.map (fun kv => if kv.1 == k then (k, v) else kv)) k = some v := by
  induction m with
  | nil => simp at h
  | cons kv rest ih =>
    rw [List.map_cons, mapGet_cons]
    by_cases h1 : kv.1 == k
    · rw [if_pos h1]
      simp
    · rw [if_neg h1, if_neg h1]
      apply ih
      simpa [h1] using h

theorem mapGet_replace_other {α : Type} (m : List (String × α)) (k k2 : String)
    (v : α) (h : k2 ≠ k) :
    mapGet (m.map (fun kv => if kv.1 == k then (k, v) else kv)) k2 = mapGet m k2 := by
  induction m with
  | nil => rfl
  | cons kv rest ih =>
    rw [List.map_cons, mapGet_cons, mapGet_cons]
    by_cases h1 : kv.1 == k
    · rw [if_pos h1]
      have hkv : kv.1 = k := eq_of_beq h1
      rw [if_neg (show ¬(((k, v).1 == k2) = true) from by
          simpa using Ne.symm h),
        if_neg (show ¬((kv.1 == k2) = true) from by
          rw [hkv]; simpa using Ne.symm h)]
      exact ih
    · rw [if_neg h1]
      by_cases h3 : kv.1 == k2
      · rw [if_pos h3, if_pos h3]
      · rw [if_neg h3, if_neg h3]
        exact ih

theorem mapGet_append_single {α : Type} (m : List (String × α)) (k k2 : String) (v : α) :
    mapGet (m ++ [(k, v)]) k2 =
      (mapGet m k2).or (if k == k2 then some v else none) := by
  unfold mapGet
  rw [List.find?_append]
  cases hf : List.find? (fun kv => kv.1 == k2) m with
  | none =>
    by_cases hk : (k == k2)
    · simp [List.find?, hk]
    · simp [List.find?, hk]
  | some kv => simp

/-- Effect of JS `Map.set` on lookups: the written key now maps to the new
value, every other key is unaffected. -/
theorem mapGet_mapSet {α : Type} (m : List (String × α)) (k k2 : String) (v : α) :
    mapGet (mapSet m k v) k2 = if k2 = k then some v else mapGet m k2 := by
  unfold mapSet
  split
  · next hany =>
    by_cases h : k2 = k
    · subst h
      rw [mapGet_replace_self m k2 v hany, if_pos rfl]
    · rw [mapGet_replace_other m k k2 v h, if_neg h]
  · next hany =>
    by_cases h : k2 = k
    · subst h
      rw [if_pos rfl, mapGet_append_single,
        mapGet_eq_none_of_not_has m k2 (by simpa [mapHas] using hany)]
      simp
    · rw [if_neg h, mapGet_append_single,
        if_neg (show ¬((k == k2) = true) from by simpa using Ne.symm h)]
      cases mapGet m k2 <;> rfl

/-! ## C5: atomicity of tag application -/

/-- Observable result projection for the tag mutators: the membership list of
one tag together with the returned flag. -/
def tagResult (e : Except Unit (Collection × Bool)) (t : String) :
    Option (List Nat × Bool) :=
  match e with
  | .ok (c, b) => some (tagIndexes c t, b)
  | .error _ => none

/-- C5 counterexample: `applyTagByIndexes [0, 5]` on the three-item fixture
returns `false` (index 5 is out of range), yet tag "t" went from absent to
`[0]`: the successful application at index 0 was not rolled back, so a
`false` return does not imply that no tag membership changed. -/
theorem applyTagByIndexes_not_atomic_counterexample :
    tagIndexes abcFixture "t" = [] ∧
    tagResult (applyTagByIndexes abcFixture [0, 5] "t") "t" = some ([0], false) := by
  exact ⟨rfl, by decide⟩

/-- C5 (amended): the single-index mutator `applyTagByIndex` is atomic — a
`false` return leaves the items, the active pointer, and every tag's
membership unchanged — but `applyTagByIndexes` merely stops at the first
failing index, so on failure the already-applied indexes stay committed (see
the counterexample). -/
theorem applyTagByIndex_false_frame (c : Collection) (i : Nat) (t : String)
    (c2 : Collection) (h : applyTagByIndex c i t = .ok (c2, false)) :
    c2.items = c.items ∧ c2.activeIndex = c.activeIndex ∧
    ∀ u, tagIndexes c2 u = tagIndexes c u := by
  unfold applyTagByIndex at h
  split at h
  · simp only [Except.ok.injEq, Prod.mk.injEq, and_true] at h
    subst h
    exact ⟨rfl, rfl, fun u => rfl⟩
  · have hassert : ∀ c1, assertAndInitializeTag c t = .ok c1 →
        c1.items = c.items ∧ c1.activeIndex = c.activeIndex ∧
        ∀ u, tagIndexes c1 u = tagIndexes c u := by
      intro c1 ha
      unfold assertAndInitializeTag at ha
      split at ha
      · simp only [Except.ok.injEq] at ha
        subst ha
        exact ⟨rfl, rfl, fun u => rfl⟩
      · next hhas =>
        have hnone : mapGet c.tags t = none :=
          mapGet_eq_none_of_not_has _ _ (by simpa [mapHas] using hhas)
        have hfr : ∀ u, (mapGet (mapSet c.tags t []) u).getD [] = tagIndexes c u := by
          intro u
          rw [mapGet_mapSet]
          by_cases hu : u = t
          · rw [if_pos hu]
            show ([] : List Nat) = tagIndexes c u
            rw [hu]
            show ([] : List Nat) = (mapGet c.tags t).getD []
            rw [hnone]
            rfl
          · rw [if_neg hu]
            rfl
        split at ha
        · simp at ha
        · split at ha <;>
          · simp only [Except.ok.injEq] at ha
            subst ha
            exact ⟨rfl, rfl, hfr⟩
    split at h
    · next e heq => simp at h
    · next c1 heq =>
      have hc1 := hassert c1 heq
      split at h
      · simp only [Except.ok.injEq, Prod.mk.injEq, and_true] at h
        subst h
        exact hc1
      · simp at h

/-- A fixture whose tag "cap" is configured with cardinality 0 and empty. -/
def cappedFixture : Collection :=
  { items := [[("id", "a")], [("id", "b")], [("id", "c")]]
    tags := [("cap", [])]
    tagConfigs := [("cap", JsCard.num 0)] }

/-- C5 witness: a capacity-failing `applyTagByIndex` call on the capped
fixture leaves every membership unchanged. -/
theorem applyTagByIndex_false_frame_witness :
    tagIndexes cappedFixture "cap" = [] := by
  have h := applyTagByIndex_false_frame cappedFixture 0 "cap" cappedFixture rfl
  exact (h.2.2 "cap").trans rfl

/-! ## C4: tag cardinality invariant -/

/-- The per-tag bound the specification claims: membership size at most the
configured cardinality (`null`, the JSON image of `Infinity`, behaves as zero
in the source's comparisons; an unconfigured tag imposes no bound). -/
def tagSizeOk (s : List Nat) (cfg : Option JsCard) : Prop :=
  match cfg with
  | some (.num n) => s.length ≤ n
  | some .inf => True
  | some .null => s.length = 0
  | none => True

/-- The claimed invariant: every stored tag membership is within its
configured cardinality. -/
def TagInv (c : Collection) : Prop :=
  ∀ t s, mapGet c.tags t = some s → tagSizeOk s (mapGet c.tagConfigs t)

/-- Well-formedness of the `Set` model: stored membership lists never hold
duplicates (a JS `Set` cannot). -/
def NodupTags (c : Collection) : Prop :=
  ∀ t s, mapGet c.tags t = some s → s.Nodup

theorem tagSizeOk_nil (cfg : Option JsCard) : tagSizeOk [] cfg := by
  unfold tagSizeOk
  cases cfg with
  | none => trivial
  | some card => cases card <;> simp

theorem nodup_setAdd {s : List Nat} {i : Nat} (h : s.Nodup) : (setAdd s i).Nodup := by
  unfold setAdd
  split
  · exact h
  · next hm => simp [List.nodup_append, h, hm]

theorem length_setAdd_le (s : List Nat) (i : Nat) :
    (setAdd s i).length ≤ s.length + 1 := by
  unfold setAdd
  split
  · omega
  · simp

theorem length_setAdd_of_mem {s : List Nat} {i : Nat} (h : i ∈ s) :
    (setAdd s i).length = s.length := by
  unfold setAdd
  rw [if_pos h]

/-- A duplicate-free list contained in another list is no longer than it. -/
theorem nodup_subset_length_le {l l2 : List Nat} (h : l.Nodup) (hs : l ⊆ l2) :
    l.length ≤ l2.length := by
  calc l.length = l.toFinset.card := (List.toFinset_card_of_nodup h).symm
    _ ≤ l2.toFinset.card := Finset.card_le_card (fun x hx => by
        rw [List.mem_toFinset] at hx ⊢
        exact hs hx)
    _ ≤ l2.length := List.toFinset_card_le l2

theorem enforceTagCardinality_length_num (tagSet : List Nat) (hnd : tagSet.Nodup)
    (n : Nat) : (enforceTagCardinality tagSet (.num n)).length ≤ n := by
  unfold enforceTagCardinality
  split
  · next hguard =>
    simp [jsCardLtSize] at hguard
    omega
  · have hsub : tagSet.filter
        (fun x => ((List.insertionSort (fun a b => a ≤ b) tagSet).take n).contains x)
        ⊆ (List.insertionSort (fun a b => a ≤ b) tagSet).take n := by
      intro x hx
      rw [List.mem_filter] at hx
      simpa using hx.2
    have h1 := nodup_subset_length_le (hnd.filter _) hsub
    have h2 : ((List.insertionSort (fun a b => a ≤ b) tagSet).take n).length ≤ n := by
      rw [List.length_take]
      exact inf_le_left
    exact le_trans h1 h2

theorem enforceTagCardinality_length_null (tagSet : List Nat) :
    (enforceTagCardinality tagSet .null).length = 0 := by
  unfold enforceTagCardinality
  split
  · next hguard =>
    simp only [jsCardLtSize, Bool.not_eq_true', decide_eq_false_iff_not,
      not_lt, Nat.le_zero] at hguard
    exact hguard
  · show (tagSet.filter
      (fun x => ((List.insertionSort (fun a b => a ≤ b) tagSet).take 0).contains x)).length = 0
    simp

theorem enforceTagCardinality_nodup (tagSet : List Nat) (hnd : tagSet.Nodup)
    (card : JsCard) : (enforceTagCardinality tagSet card).Nodup := by
  unfold enforceTagCardinality
  split
  · exact hnd
  · exact hnd.filter _

/-- Preservation of the cardinality invariant by one `applyTagByIndex`. -/
theorem applyTagByIndex_preserves_inv (c : Collection)
    (hinv : TagInv c) (hnd : NodupTags c) (i : Nat) (t : String)
    (c2 : Collection) (r : Bool) (h : applyTagByIndex c i t = .ok (c2, r)) :
    TagInv c2 ∧ NodupTags c2 := by
  unfold applyTagByIndex at h
  split at h
  · simp only [Except.ok.injEq, Prod.mk.injEq] at h
    obtain ⟨h1, _⟩ := h
    subst h1
    exact ⟨hinv, hnd⟩
  · have hassert : ∀ c1, assertAndInitializeTag c t = .ok c1 →
        TagInv c1 ∧ NodupTags c1 := by
      intro c1 ha
      unfold assertAndInitializeTag at ha
      split at ha
      · simp only [Except.ok.injEq] at ha
        subst ha
        exact ⟨hinv, hnd⟩
      · split at ha
        · simp at ha
        · split at ha <;>
          · simp only [Except.ok.injEq] at ha
            subst ha
            constructor
            · intro u s hu
              have hu2 : mapGet (mapSet c.tags t []) u = some s := hu
              rw [mapGet_mapSet] at hu2
              by_cases huk : u = t
              · rw [if_pos huk] at hu2
                injection hu2 with hu2
                subst hu2
                exact tagSizeOk_nil _
              · rw [if_neg huk] at hu2
                have := hinv u s hu2
                show tagSizeOk s (mapGet _ u)
                first
                | exact this
                | · show tagSizeOk s (mapGet (mapSet c.tagConfigs t JsCard.inf) u)
                    rw [mapGet_mapSet, if_neg huk]
                    exact this
            · intro u s hu
              have hu2 : mapGet (mapSet c.tags t []) u = some s := hu
              rw [mapGet_mapSet] at hu2
              by_cases huk : u = t
              · rw [if_pos huk] at hu2
                injection hu2 with hu2
                subst hu2
                exact List.nodup_nil
              · rw [if_neg huk] at hu2
                exact hnd u s hu2
    split at h
    · next e heq => simp at h
    · next c1 heq =>
      obtain ⟨hinv1, hnd1⟩ := hassert c1 heq
      split at h
      · simp only [Except.ok.injEq, Prod.mk.injEq] at h
        obtain ⟨h1, _⟩ := h
        subst h1
        exact ⟨hinv1, hnd1⟩
      · next hguard =>
        simp only [Except.ok.injEq, Prod.mk.injEq] at h
        obtain ⟨h1, _⟩ := h
        subst h1
        rw [Bool.and_eq_true, Bool.not_eq_eq_eq_not, Bool.not_true, not_and] at hguard
        have hkey : ∀ card, mapGet c1.tagConfigs t = some card →
            sizeGeCard ((mapGet c1.tags t).getD []).length card = true →
            i ∈ (mapGet c1.tags t).getD [] := by
          intro card hc hcap
          have hx := hguard (by rw [hc]; exact hcap)
          rw [Bool.not_eq_false] at hx
          simpa using hx
        constructor
        · intro u s hu
          have hu2 : mapGet (mapSet c1.tags t
              (setAdd ((mapGet c1.tags t).getD []) i)) u = some s := hu
          rw [mapGet_mapSet] at hu2
          by_cases huk : u = t
          · rw [if_pos huk] at hu2
            injection hu2 with hu2
            subst hu2
            show tagSizeOk _ (mapGet c1.tagConfigs u)
            rw [huk]
            cases hcfg : mapGet c1.tagConfigs t with
            | none => trivial
            | some card =>
              cases card with
              | inf => trivial
              | num n =>
                show (setAdd ((mapGet c1.tags t).getD []) i).length ≤ n
                have hSbound : ((mapGet c1.tags t).getD []).length ≤ n := by
                  cases hS : mapGet c1.tags t with
                  | none => simp
                  | some s0 =>
                    have hb := hinv1 t s0 hS
                    rw [hcfg] at hb
                    exact hb
                by_cases hmem : i ∈ (mapGet c1.tags t).getD []
                · rw [length_setAdd_of_mem hmem]
                  exact hSbound
                · have hlt : ¬ ((mapGet c1.tags t).getD []).length ≥ n := by
                    intro hge
                    exact hmem (hkey _ hcfg (by simpa [sizeGeCard] using hge))
                  have hle := length_setAdd_le ((mapGet c1.tags t).getD []) i
                  omega
              | null =>
                show (setAdd ((mapGet c1.tags t).getD []) i).length = 0
                have hmem := hkey JsCard.null hcfg rfl
                have hS0 : ((mapGet c1.tags t).getD []).length = 0 := by
                  cases hS : mapGet c1.tags t with
                  | none => simp
                  | some s0 =>
                    have hb := hinv1 t s0 hS
                    rw [hcfg] at hb
                    exact hb
                rw [List.length_eq_zero.mp hS0] at hmem
                simp at hmem
          · rw [if_neg huk] at hu2
            exact hinv1 u s hu2
        · intro u s hu
          have hu2 : mapGet (mapSet c1.tags t
              (setAdd ((mapGet c1.tags t).getD []) i)) u = some s := hu
          rw [mapGet_mapSet] at hu2
          by_cases huk : u = t
          · rw [if_pos huk] at hu2
            injection hu2 with hu2
            subst hu2
            cases hS : mapGet c1.tags t with
            | none => exact nodup_setAdd List.nodup_nil
            | some s0 => exact nodup_setAdd (hnd1 t s0 hS)
          · rw [if_neg huk] at hu2
            exact hnd1 u s hu2

/-- Preservation of the cardinality invariant by `configureTagCore`. -/
theorem configureTagCore_preserves_inv (c1 : Collection) (hinv : TagInv c1)
    (hnd : NodupTags c1) (t : String) (card : JsCard) (c2 : Collection) (r : Bool)
    (h : configureTagCore c1 t card = .ok (c2, r)) : TagInv c2 ∧ NodupTags c2 := by
  unfold configureTagCore at h
  split at h
  · simp at h
  · next tagSet hS =>
    split at h
    · next hlt =>
      simp only [Except.ok.injEq, Prod.mk.injEq] at h
      obtain ⟨h1, _⟩ := h
      subst h1
      constructor
      · intro u s hu
        have hu2 : mapGet (mapSet c1.tags t (enforceTagCardinality tagSet card)) u
            = some s := hu
        rw [mapGet_mapSet] at hu2
        show tagSizeOk s (mapGet (mapSet c1.tagConfigs t card) u)
        rw [mapGet_mapSet]
        by_cases huk : u = t
        · rw [if_pos huk] at hu2 ⊢
          injection hu2 with hu2
          subst hu2
          cases card with
          | num n =>
            exact enforceTagCardinality_length_num tagSet (hnd t tagSet hS) n
          | inf => trivial
          | null => exact enforceTagCardinality_length_null tagSet
        · rw [if_neg huk] at hu2 ⊢
          exact hinv u s hu2
      · intro u s hu
        have hu2 : mapGet (mapSet c1.tags t (enforceTagCardinality tagSet card)) u
            = some s := hu
        rw [mapGet_mapSet] at hu2
        by_cases huk : u = t
        · rw [if_pos huk] at hu2
          injection hu2 with hu2
          subst hu2
          exact enforceTagCardinality_nodup tagSet (hnd t tagSet hS) card
        · rw [if_neg huk] at hu2
          exact hnd u s hu2
    · next hlt =>
      simp only [Except.ok.injEq, Prod.mk.injEq] at h
      obtain ⟨h1, _⟩ := h
      subst h1
      constructor
      · intro u s hu
        have hu2 : mapGet c1.tags u = some s := hu
        show tagSizeOk s (mapGet (mapSet c1.tagConfigs t card) u)
        rw [mapGet_mapSet]
        by_cases huk : u = t
        · rw [if_pos huk]
          subst huk
          rw [hS] at hu2
          injection hu2 with hu2
          subst hu2
          cases card with
          | num n =>
            simp [jsCardLtSize] at hlt
            exact hlt
          | inf => trivial
          | null =>
            simp [jsCardLtSize] at hlt
            show tagSet.length = 0
            simp [hlt]
        · rw [if_neg huk]
          exact hinv u s hu2
      · exact hnd

/-- Preservation of the cardinality invariant by `configureTag`. -/
theorem configureTag_preserves_inv (c : Collection) (hinv : TagInv c)
    (hnd : NodupTags c) (t : String) (card : JsCard) (c2 : Collection) (r : Bool)
    (h : configureTag c t card = .ok (c2, r)) : TagInv c2 ∧ NodupTags c2 := by
  unfold configureTag at h
  split at h
  · exact configureTagCore_preserves_inv c hinv hnd t card c2 r h
  · refine configureTagCore_preserves_inv _ ?_ ?_ t card c2 r h
    · intro u s hu
      have hu2 : mapGet (mapSet c.tags t []) u = some s := hu
      rw [mapGet_mapSet] at hu2
      show tagSizeOk s (mapGet (mapSet c.tagConfigs t JsCard.inf) u)
      rw [mapGet_mapSet]
      by_cases huk : u = t
      · rw [if_pos huk] at hu2 ⊢
        injection hu2 with hu2
        subst hu2
        trivial
      · rw [if_neg huk] at hu2 ⊢
        exact hinv u s hu2
    · intro u s hu
      have hu2 : mapGet (mapSet c.tags t []) u = some s := hu
      rw [mapGet_mapSet] at hu2
      by_cases huk : u = t
      · rw [if_pos huk] at hu2
        injection hu2 with hu2
        subst hu2
        exact List.nodup_nil
      · rw [if_neg huk] at hu2
        exact hnd u s hu2

/-- Preservation of the cardinality invariant by `applyTagByIndexes`. -/
theorem applyTagByIndexes_preserves_inv :
    ∀ (idxs : List Nat) (c : Collection), TagInv c → NodupTags c →
      ∀ t c2 r, applyTagByIndexes c idxs t = .ok (c2, r) →
        TagInv c2 ∧ NodupTags c2 := by
  intro idxs
  induction idxs with
  | nil =>
    intro c hinv hnd t c2 r h
    unfold applyTagByIndexes at h
    simp only [Except.ok.injEq, Prod.mk.injEq] at h
    obtain ⟨h1, _⟩ := h
    subst h1
    exact ⟨hinv, hnd⟩
  | cons i rest ih =>
    intro c hinv hnd t c2 r h
    unfold applyTagByIndexes at h
    split at h
    · next e heq => simp at h
    · next cm rm heq =>
      obtain ⟨hinvm, hndm⟩ := applyTagByIndex_preserves_inv c hinv hnd i t cm rm heq
      split at h
      · exact ih cm hinvm hndm t c2 r h
      · simp only [Except.ok.injEq, Prod.mk.injEq] at h
        obtain ⟨h1, _⟩ := h
        subst h1
        exact ⟨hinvm, hndm⟩

/-- C4 counterexample: `configure` with a `tags` option only records the new
configuration.  On the fixture, where tag "foo" holds positions 0 and 1,
configuring cardinality 1 leaves the membership at size 2 > 1: the claimed
invariant fails right after the committed `configure` call. -/
theorem configure_tags_no_enforcement_counterexample :
    mapGet (configure abcFixture { tags := some [("foo", JsCard.num 1)] }).tags "foo"
      = some [0, 1] ∧
    mapGet (configure abcFixture
        { tags := some [("foo", JsCard.num 1)] }).tagConfigs "foo"
      = some (JsCard.num 1) ∧
    ¬ ([0, 1] : List Nat).length ≤ 1 := by
  exact ⟨by decide, by decide, by decide⟩

/-- C4 (amended): the cardinality invariant is preserved by
`applyTagByIndex` and `applyTagByIndexes` and is (re-)established by
`configureTag`, including when the cardinality is reduced (excess members
are evicted from the highest positions); `configure` with a `tags` option,
however, merely records the configuration without shrinking existing
memberships, so it can break the invariant (see the counterexample). -/
theorem tag_cardinality_invariant (c : Collection)
    (hinv : TagInv c) (hnd : NodupTags c) :
    (∀ i t c2 r, applyTagByIndex c i t = .ok (c2, r) → TagInv c2) ∧
    (∀ idxs t c2 r, applyTagByIndexes c idxs t = .ok (c2, r) → TagInv c2) ∧
    (∀ t card c2 r, configureTag c t card = .ok (c2, r) → TagInv c2) := by
  refine ⟨?_, ?_, ?_⟩
  · intro i t c2 r h
    exact (applyTagByIndex_preserves_inv c hinv hnd i t c2 r h).1
  · intro idxs t c2 r h
    exact (applyTagByIndexes_preserves_inv idxs c hinv hnd t c2 r h).1
  · intro t card c2 r h
    exact (configureTag_preserves_inv c hinv hnd t card c2 r h).1

/-- C4 witness: the invariant machinery instantiated on the fixture — the
capacity-limited application of tag "foo" to index 2 keeps the invariant. -/
theorem tag_cardinality_invariant_witness :
    tagResult (applyTagByIndex abcFixture 2 "foo") "foo" = some ([0, 1, 2], true) := by
  have hinv : TagInv abcFixture := by
    intro t s h
    by_cases ht : (("foo" : String) == t) = true
    · rw [show abcFixture.tags = [("foo", [0, 1])] from rfl, mapGet_cons,
        if_pos ht] at h
      injection h with h
      subst h
      show tagSizeOk [0, 1] (mapGet abcFixture.tagConfigs t)
      rw [show abcFixture.tagConfigs = [("foo", JsCard.inf)] from rfl, mapGet_cons,
        if_pos ht]
      trivial
    · rw [show abcFixture.tags = [("foo", [0, 1])] from rfl, mapGet_cons,
        if_neg ht] at h
      simp [mapGet] at h
  have hnd : NodupTags abcFixture := by
    intro t s h
    by_cases ht : (("foo" : String) == t) = true
    · rw [show abcFixture.tags = [("foo", [0, 1])] from rfl, mapGet_cons,
        if_pos ht] at h
      injection h with h
      subst h
      decide
    · rw [show abcFixture.tags = [("foo", [0, 1])] from rfl, mapGet_cons,
        if_neg ht] at h
      simp [mapGet] at h
  have happ := (tag_cardinality_invariant abcFixture hinv hnd).1
  cases hres : applyTagByIndex abcFixture 2 "foo" with
  | error e =>
    have : (applyTagByIndex abcFixture 2 "foo").map (fun p => p.2) = .ok true := by
      rfl
    rw [hres] at this
    simp [Except.map] at this
  | ok p =>
    obtain ⟨c2, r⟩ := p
    have hinv2 := happ 2 "foo" c2 r hres
    have : (applyTagByIndex abcFixture 2 "foo").map
        (fun p => (tagIndexes p.1 "foo", p.2)) = .ok ([0, 1, 2], true) := by rfl
    rw [hres] at this
    simp only [Except.map, Except.ok.injEq] at this
    simp [tagResult, this]

/-! ## JSON values and `JSON.parse` -/

/-- A parsed JSON value (JS numbers restricted to integers: the dumps this
library serializes contain only integral numbers or `null`). -/
inductive JSVal where
  | null
  | bool (b : Bool)
  | num (n : Int)
  | str (s : String)
  | arr (elems : List JSVal)
  | obj (fields : List (String × JSVal))

/-- Skip JSON whitespace. -/
def skipWs : List Char → List Char
  | c :: cs => if c = ' ' ∨ c = '\n' ∨ c = '\t' ∨ c = '\r' then skipWs cs else c :: cs
  | [] => []

/-- Parse the body of a double-quoted string (after the opening quote).
Escape sequences keep the escaped character (`\n`/`\t` decoded; `\u` escapes
are out of scope for this model). -/
def parseStringBody : List Char → List Char → Option (String × List Char)
  | [], _ => none
  | c :: rest, acc =>
    if c = '"' then some (String.mk acc.reverse, rest)
    else if c = '\\' then
      match rest with
      | e :: rest2 =>
        parseStringBody rest2
          ((if e = 'n' then '\n' else if e = 't' then '\t' else e) :: acc)
      | [] => none
    else parseStringBody rest (c :: acc)

/-- Consume a run of decimal digits, accumulating their value. -/
def parseDigits : List Char → Nat → (Nat × List Char)
  | c :: cs, acc =>
    if c.isDigit then parseDigits cs (acc * 10 + (c.toNat - 48)) else (acc, c :: cs)
  | [], acc => (acc, [])

/-- Drop a run of decimal digits (used for the ignored fractional part:
the dumps serialized by this library only contain integral numbers). -/
def dropDigits : List Char → List Char
  | c :: cs => if c.isDigit then dropDigits cs else c :: cs
  | [] => []

/-- Parse a JSON number starting at a digit, ignoring any fractional part. -/
def parseNum (cs : List Char) : Option (Nat × List Char) :=
  match cs with
  | c :: _ =>
    if c.isDigit then
      match parseDigits cs 0 with
      | (n, '.' :: rest) => some (n, dropDigits rest)
      | (n, rest) => some (n, rest)
    else none
  | [] => none

mutual

/-- Recursive-descent JSON parser (fuel-bounded; every recursive call
consumes input, so `length + 1` fuel always suffices). -/
def parseVal : Nat → List Char → Option (JSVal × List Char)
  | 0, _ => none
  | f + 1, cs0 =>
    match skipWs cs0 with
    | 'n' :: 'u' :: 'l' :: 'l' :: rest => some (.null, rest)
    | 't' :: 'r' :: 'u' :: 'e' :: rest => some (.bool true, rest)
    | 'f' :: 'a' :: 'l' :: 's' :: 'e' :: rest => some (.bool false, rest)
    | '"' :: rest =>
      match parseStringBody rest [] with
      | some (s, rest2) => some (.str s, rest2)
      | none => none
    | '[' :: rest =>
      match skipWs rest with
      | ']' :: rest2 => some (.arr [], rest2)
      | cs2 => parseArrElems f cs2 []
    | '{' :: rest =>
      match skipWs rest with
      | '}' :: rest2 => some (.obj [], rest2)
      | cs2 => parseObjFields f cs2 []
    | '-' :: rest =>
      match parseNum rest with
      | some (n, rest2) => some (.num (-(n : Int)), rest2)
      | none => none
    | cs =>
      match parseNum cs with
      | some (n, rest2) => some (.num (n : Int), rest2)
      | none => none

/-- Parse the comma-separated elements of an array (after `[`). -/
def parseArrElems : Nat → List Char → List JSVal → Option (JSVal × List Char)
  | 0, _, _ => none
  | f + 1, cs, acc =>
    match parseVal f cs with
    | none => none
    | some (v, rest) =>
      match skipWs rest with
      | ',' :: rest2 => parseArrElems f rest2 (v :: acc)
      | ']' :: rest2 => some (.arr (v :: acc).reverse, rest2)
      | _ => none

/-- Parse the comma-separated fields of an object (after `{`). -/
def parseObjFields : Nat → List Char → List (String × JSVal) →
    Option (JSVal × List Char)
  | 0, _, _ => none
  | f + 1, cs, acc =>
    match skipWs cs with
    | '"' :: rest =>
      match parseStringBody rest [] with
      | none => none
      | some (key, rest2) =>
        match skipWs rest2 with
        | ':' :: rest3 =>
          match parseVal f rest3 with
          | none => none
          | some (v, rest4) =>
            match skipWs rest4 with
            | ',' :: rest5 => parseObjFields f rest5 ((key, v) :: acc)
            | '}' :: rest5 => some (.obj ((key, v) :: acc).reverse, rest5)
            | _ => none
        | _ => none
    | _ => none

end

/-- Model of `JSON.parse`: parse the whole string or throw a `SyntaxError`. -/
def jsonParse (s : String) : Except String JSVal :=
  match parseVal (s.length + 1) s.toList with
  | some (v, rest) =>
    if (skipWs rest).isEmpty then .ok v else .error "SyntaxError"
  | none => .error "SyntaxError"

/-! ## The dump shape and `restore` -/

/-- The parsed-object view of a dump, as `restore` reads it.  `none` fields
model missing keys or keys of the wrong JS type at the point where the
source checks them (`Array.isArray(dump.items)`,
`typeof dump.activeIndex === "number"`, ...).  `cardinality = .null` covers
both JSON `null` (the serialization of `Infinity`) and a missing key — both
hit `?? Infinity`. -/
structure Dump where
  items : Option (List JSInput) := none
  activeIndex : Option Int := none
  cardinality : JsCard := .null
  unique : Bool := false
  idPropName : Option String := none
  tags : Option (List (String × List Int)) := none
  tagConfigs : Option (List (String × JsCard)) := none

/-- The configuration-scalar phase of `restore`: clear, then assign
`cardinality ?? Infinity`, `!!unique`, and `idPropName`.  Assigning a JS
`undefined` property name makes later `item[undefined]` accesses use the
string key "undefined" (JS key coercion), hence the `getD "undefined"`. -/
def restoreScalars (c : Collection) (d : Dump) : Collection :=
  { clear c with
      cardinality := (match d.cardinality with
        | .num n => some n
        | .inf => none
        | .null => none)
      unique := d.unique
      idPropName := d.idPropName.getD "undefined" }

/-- The active-index phase of `restore`: keep the dumped position only when
it is a number within the restored bounds. -/
def restoreActive (c1 : Collection) (d : Dump) : Collection :=
  match d.activeIndex with
  | some a =>
    if 0 ≤ a ∧ a < c1.items.length then { c1 with activeIndex := some a } else c1
  | none => c1

/-- The tag-configuration phase of `restore`: copy every dumped
configuration and make sure the tag set exists. -/
def restoreTagConfigs (c : Collection) (d : Dump) : Collection :=
  match d.tagConfigs with
  | none => c
  | some cfgs =>
    cfgs.foldl (fun acc kv =>
      { acc with
          tagConfigs := mapSet acc.tagConfigs kv.1 kv.2
          tags := if mapHas acc.tags kv.1 then acc.tags else mapSet acc.tags kv.1 [] })
      c

/-- Rebuild one tag set from dumped positions, keeping only numbers within
the current bounds. -/
def buildTagSet (idxs : List Int) (size : Nat) : List Nat :=
  idxs.foldl (fun s i => if 0 ≤ i ∧ i < (size : Int) then setAdd s i.toNat else s) []

/-- The tag-membership phase of `restore`: rebuild every dumped tag set,
silently dropping out-of-bounds positions. -/
def restoreTags (c : Collection) (d : Dump) : Collection :=
  match d.tags with
  | none => c
  | some tgs =>
    tgs.foldl (fun acc kv =>
      { acc with tags := mapSet acc.tags kv.1 (buildTagSet kv.2 acc.items.length) }) c

/-- The body of the `try` block of `restore`, over a parsed dump object.
The only throwing step is `addMany` (via `add`'s uniqueness check on an
item without an identity attribute). -/
def restoreDump (c : Collection) (d : Dump) : Except Unit Collection :=
  match (match d.items with
         | some its => addMany (restoreScalars c d) its
         | none => .ok (restoreScalars c d, 0)) with
  | .error e => .error e
  | .ok (c1, _) =>
    .ok (restoreTags (restoreTagConfigs (restoreActive c1 d) d) d)

/-- Coerce a parsed JSON value into a collection item (attributes with
non-string values are outside this model's item type and are dropped). -/
def jsValToInput (v : JSVal) : JSInput :=
  match v with
  | .str s => .str s
  | .obj fields =>
    .obj (fields.foldr (fun kv acc =>
      match kv.2 with
      | .str s => (kv.1, s) :: acc
      | _ => acc) [])
  | _ => .obj []

/-- Coerce a parsed tag-configuration record: a missing `cardinality` key
behaves exactly like `Infinity` in every comparison the source performs, and
non-numeric values are approximated by `null` (both coerce like 0). -/
def jsValToCard (v : JSVal) : JsCard :=
  match v with
  | .num n => .num n.toNat
  | .null => .null
  | _ => .null

/-- Read the parsed fields of a JSON object into the dump view. -/
def jsObjToDump (fields : List (String × JSVal)) : Dump :=
  { items := (match mapGet fields "items" with
      | some (.arr l) => some (l.map jsValToInput)
      | _ => none)
    activeIndex := (match mapGet fields "activeIndex" with
      | some (.num n) => some n
      | _ => none)
    cardinality := (match mapGet fields "cardinality" with
      | some (.num n) => .num n.toNat
      | _ => .null)
    unique := (match mapGet fields "unique" with
      | some (.bool b) => b
      | some (.num n) => n ≠ 0
      | some (.str s) => s ≠ ""
      | some (.arr _) => true
      | some (.obj _) => true
      | _ => false)
    idPropName := (match mapGet fields "idPropName" with
      | some (.str s) => some s
      | _ => none)
    tags := (match mapGet fields "tags" with
      | some (.obj tfields) => some (tfields.foldr (fun kv acc =>
          match kv.2 with
          | .arr l => (kv.1, l.foldr (fun v acc2 =>
              match v with
              | .num n => n :: acc2
              | _ => acc2) []) :: acc
          | _ => acc) [])
      | _ => none)
    tagConfigs := (match mapGet fields "tagConfigs" with
      | some (.obj cfields) => some (cfields.map (fun kv =>
          (kv.1, match kv.2 with
                 | .obj cf => (match mapGet cf "cardinality" with
                     | some (.num n) => .num n.toNat
                     | some .null => JsCard.null
                     | some _ => JsCard.null
                     | none => JsCard.inf)
                 | _ => JsCard.inf)))
      | _ => none) }

/-- The argument accepted by `restore`: a JSON string, a dump object, or a
falsy value (`null`/`undefined`). -/
inductive RestoreArg where
  | str (s : String)
  | dump (d : Dump)
  | nullArg

/-- Dispatch of `restore` on a parsed JSON value: `null` has
`typeof === "object"` and the first property access inside the `try` throws
(caught: clear, report failure); other primitives fail the `typeof` check;
an array is an object none of whose dump keys exist. -/
def restoreParsed (c : Collection) (v : JSVal) : Except String (Collection × Bool) :=
  match v with
  | .null => .ok (clear c, false)
  | .bool _ => .ok (c, false)
  | .num _ => .ok (c, false)
  | .str _ => .ok (c, false)
  | .obj fields =>
    (match restoreDump c (jsObjToDump fields) with
     | .error _ => .ok (clear c, false)
     | .ok c4 => .ok (c4, true))
  | .arr _ =>
    (match restoreDump c {} with
     | .error _ => .ok (clear c, false)
     | .ok c4 => .ok (c4, true))

/-- Source `restore`.  The falsy check comes first; then — decisively —
`JSON.parse` runs OUTSIDE the `try` block, so a parse failure propagates to
the caller as an exception; only errors inside the `try` are caught and
turn into "clear and return false". -/
def restore (c : Collection) (arg : RestoreArg) : Except String (Collection × Bool) :=
  match arg with
  | .nullArg => .ok (c, false)
  | .str s =>
    if s = "" then .ok (c, false)
    else
      match jsonParse s with
      | .error e => .error e
      | .ok v => restoreParsed c v
  | .dump d =>
    match restoreDump c d with
    | .error _ => .ok (clear c, false)
    | .ok c4 => .ok (c4, true)

/-- The object-level dump `toJSON` produces (the argument seen by the
object path of `restore`, with no JSON-text effects applied). -/
def toJSONDump (c : Collection) : Dump :=
  { items := some (c.items.map .obj)
    activeIndex := c.activeIndex
    cardinality := (match c.cardinality with
      | some n => .num n
      | none => .inf)
    unique := c.unique
    idPropName := some c.idPropName
    tags := some (c.tags.map (fun kv => (kv.1, kv.2.map Int.ofNat)))
    tagConfigs := some c.tagConfigs }

/-- The dump after a JSON round trip, i.e. the object
`JSON.parse(JSON.stringify(collection.toJSON()))` that the string form
`restore(collection.dump())` actually receives: `JSON.stringify` turns
`Infinity` into `null` (both for the collection cardinality and inside
every tag configuration) and drops `undefined`-valued keys; everything
else in the dump shape (strings, integers, arrays, plain objects) survives
verbatim. -/
def dumpRT (c : Collection) : Dump :=
  { toJSONDump c with
      cardinality := (match c.cardinality with
        | some n => .num n
        | none => .null)
      tagConfigs := some (c.tagConfigs.map (fun kv =>
        (kv.1, match kv.2 with
               | .num n => JsCard.num n
               | .inf => JsCard.null
               | .null => JsCard.null))) }

/-! ## C6: restore error handling -/

/-- C6: `JSON.parse` runs BEFORE the `try` block of `restore`, so an invalid
JSON string makes `restore` propagate a `SyntaxError` to its caller (with
the collection untouched), contradicting the claim that `restore` always
returns a boolean; by contrast an error raised inside the `try` — here the
property access on a parsed `null` — is caught and yields `false` with the
collection cleared, which is the behavior the claim describes. -/
theorem restore_invalid_json_throws :
    restore abcFixture (.str "not-json") = .error "SyntaxError" ∧
    restore abcFixture (.str "null") = .ok (clear abcFixture, false) := by
  exact ⟨rfl, rfl⟩

/-! ## Lemmas for the dump round trip (C7) -/

/-- Sorting with the never-configured default comparator is the identity on
the whole collection record. -/
theorem sortOp_default_eq (c : Collection) (h : c.sortFn = none) :
    (sortOp c none).1 = c := by
  have hitems := sortOp_items_default c h
  show { c with items := (sortOp c none).1.items } = c
  rw [hitems]

/-- The scalar phase of restoring a collection's own dump restores exactly
the scalars the collection already had. -/
theorem restoreScalars_dumpRT (c : Collection) :
    restoreScalars c (dumpRT c) = clear c := by
  have hcard : (match (match c.cardinality with
      | some n => JsCard.num n
      | none => JsCard.null) with
      | JsCard.num n => some n
      | JsCard.inf => none
      | JsCard.null => none) = c.cardinality := by
    cases c.cardinality <;> rfl
  show { clear c with
          cardinality := (match (match c.cardinality with
            | some n => JsCard.num n
            | none => JsCard.null) with
            | JsCard.num n => some n
            | JsCard.inf => none
            | JsCard.null => none)
          unique := c.unique
          idPropName := (some c.idPropName).getD "undefined" } = clear c
  rw [hcard]
  rfl

theorem mapGet_isSome_of_has {α : Type} (m : List (String × α)) (k : String)
    (h : mapHas m k = true) : (mapGet m k).isSome = true := by
  unfold mapHas at h
  rw [List.any_eq_true] at h
  obtain ⟨x, hx, hpx⟩ := h
  unfold mapGet
  cases hf : m.find? (fun kv => kv.1 == k) with
  | some _ => rfl
  | none =>
    rw [List.find?_eq_none] at hf
    exact absurd hpx (hf x hx)

/-- Searching a value-mapped association list is searching the original. -/
theorem find?_map_keyval {α β : Type} (g : String × α → β)
    (m : List (String × α)) (u : String) :
    (m.map (fun kv => (kv.1, g kv))).find? (fun kv => kv.1 == u) =
      (m.find? (fun kv => kv.1 == u)).map (fun kv => (kv.1, g kv)) := by
  induction m with
  | nil => rfl
  | cons kv rest ih =>
    rw [List.map_cons, List.find?_cons, List.find?_cons]
    dsimp only
    cases h : (kv.1 == u) with
    | true => rfl
    | false => exact ih

/-- Mapped keys of a value-mapped association list. -/
theorem map_fst_map_val {α β : Type} (f : String × α → β) (m : List (String × α)) :
    ((m.map (fun kv => (kv.1, f kv))).map Prod.fst) = m.map Prod.fst := by
  rw [List.map_map]
  rfl

/-- Folding `Map.set` entries with fresh keys over a map: the written keys
take their (new) values, other lookups fall through to the base map. -/
theorem mapGet_foldl_mapSetG {α β : Type} (g : String × β → α) :
    ∀ (L : List (String × β)) (m : List (String × α)) (u : String),
      ((L.map (fun kv => (kv.1, g kv))).map Prod.fst).Nodup →
      mapGet (L.foldl (fun acc kv => mapSet acc kv.1 (g kv)) m) u =
        ((L.find? (fun kv => kv.1 == u)).map (fun kv => g kv)).or (mapGet m u) := by
  intro L
  induction L with
  | nil =>
    intro m u _
    rfl
  | cons kv rest ih =>
    intro m u hnd
    rw [map_fst_map_val] at hnd
    rw [List.map_cons] at hnd
    have hndr : ((rest.map (fun kv => (kv.1, g kv))).map Prod.fst).Nodup := by
      rw [map_fst_map_val]
      exact hnd.of_cons
    rw [List.foldl_cons, ih _ _ hndr]
    by_cases hk : (kv.1 == u) = true
    · have hrest : rest.find? (fun kv2 => kv2.1 == u) = none := by
        rw [List.find?_eq_none]
        intro x hx hpx
        have h1 : kv.1 = u := eq_of_beq hk
        have h2 : x.1 = u := eq_of_beq hpx
        have : kv.1 ∈ rest.map Prod.fst := by
          rw [h1, ← h2]
          exact List.mem_map_of_mem Prod.fst hx
        exact (List.nodup_cons.mp hnd).1 this
      rw [List.find?_cons, hk, hrest, mapGet_mapSet, if_pos (eq_of_beq hk).symm]
      rfl
    · have hkf : (kv.1 == u) = false := by simpa using hk
      rw [List.find?_cons, hkf, mapGet_mapSet,
        if_neg (fun hh => absurd (beq_iff_eq.mpr hh.symm) hk)]

/-- Folding the ensure-tag-set step over a map: existing keys keep their
sets, fresh written keys get an empty set. -/
theorem mapGet_foldl_ensure {β : Type} :
    ∀ (L : List (String × β)) (m : List (String × List Nat)) (u : String),
      mapGet (L.foldl (fun acc kv =>
        if mapHas acc kv.1 then acc else mapSet acc kv.1 []) m) u =
        (mapGet m u).or
          (if L.any (fun kv => kv.1 == u) then some [] else none) := by
  intro L
  induction L with
  | nil =>
    intro m u
    cases hm : mapGet m u <;> simp [hm, Option.or]
  | cons kv rest ih =>
    intro m u
    rw [List.foldl_cons]
    by_cases hk : (kv.1 == u) = true
    · by_cases hhas : mapHas m kv.1
      · rw [if_pos hhas, ih]
        have hu : kv.1 = u := eq_of_beq hk
        have hsome := mapGet_isSome_of_has m u (hu ▸ hhas)
        obtain ⟨w, hw⟩ := Option.isSome_iff_exists.mp hsome
        rw [hw, List.any_cons, hk]
        simp [Option.or]
      · rw [if_neg hhas, ih]
        have hu : kv.1 = u := eq_of_beq hk
        rw [mapGet_mapSet, if_pos hu.symm,
          mapGet_eq_none_of_not_has m u (by rw [← hu]; simpa using hhas),
          List.any_cons, hk]
        simp [Option.or]
    · have hkf : (kv.1 == u) = false := by simpa using hk
      by_cases hhas : mapHas m kv.1
      · rw [if_pos hhas, ih, List.any_cons, hkf, Bool.false_or]
      · rw [if_neg hhas, ih, mapGet_mapSet,
          if_neg (fun hh => absurd (beq_iff_eq.mpr hh.symm) hk),
          List.any_cons, hkf, Bool.false_or]

/-- Splitting the tag-configuration restore fold into per-field folds. -/
theorem foldl_record_split (cfgs : List (String × JsCard)) :
    ∀ (c : Collection),
      cfgs.foldl (fun acc kv =>
        { acc with
            tagConfigs := mapSet acc.tagConfigs kv.1 kv.2
            tags := if mapHas acc.tags kv.1 then acc.tags
                    else mapSet acc.tags kv.1 [] }) c
      = { c with
          tagConfigs := cfgs.foldl (fun m kv => mapSet m kv.1 kv.2) c.tagConfigs
          tags := cfgs.foldl (fun m kv =>
            if mapHas m kv.1 then m else mapSet m kv.1 []) c.tags } := by
  induction cfgs with
  | nil => intro c; rfl
  | cons kv rest ih =>
    intro c
    rw [List.foldl_cons, ih, List.foldl_cons, List.foldl_cons]

/-- Splitting the tag-membership restore fold into a per-field fold (the
item list, and hence the size used for the bounds check, never changes). -/
theorem foldl_tags_split (tgs : List (String × List Int)) :
    ∀ (c : Collection),
      tgs.foldl (fun acc kv =>
        { acc with tags := mapSet acc.tags kv.1 (buildTagSet kv.2 acc.items.length) }) c
      = { c with tags := tgs.foldl (fun m kv =>
          mapSet m kv.1 (buildTagSet kv.2 c.items.length)) c.tags } := by
  induction tgs with
  | nil => intro c; rfl
  | cons kv rest ih =>
    intro c
    rw [List.foldl_cons, ih, List.foldl_cons]

/-- Re-adding the members of a duplicate-free set to a fresh set rebuilds
it verbatim. -/
theorem foldl_setAdd_eq_self :
    ∀ (s acc : List Nat), (∀ x ∈ s, x ∉ acc) → s.Nodup →
      s.foldl (fun a x => setAdd a x) acc = acc ++ s := by
  intro s
  induction s with
  | nil => intro acc _ _; simp
  | cons x rest ih =>
    intro acc hdisj hnd
    rw [List.foldl_cons]
    have hx : x ∉ acc := hdisj x (List.mem_cons_self x rest)
    have hstep : setAdd acc x = acc ++ [x] := by
      unfold setAdd
      rw [if_neg hx]
    rw [hstep, ih (acc ++ [x]) ?_ hnd.of_cons]
    · simp
    · intro y hy
      rw [List.mem_append]
      rintro (hya | hyx)
      · exact hdisj y (List.mem_cons_of_mem x hy) hya
      · rw [List.mem_singleton] at hyx
        subst hyx
        exact (List.nodup_cons.mp hnd).1 hy

/-- Restoring the serialized members of an in-bounds duplicate-free tag set
rebuilds exactly the original set. -/
theorem buildTagSet_roundtrip (s : List Nat) (len : Nat)
    (hb : ∀ i ∈ s, i < len) (hnd : s.Nodup) :
    buildTagSet (s.map Int.ofNat) len = s := by
  unfold buildTagSet
  rw [List.foldl_map]
  have h9 : ∀ (acc : List Nat), (∀ x ∈ s, x ∉ acc) →
      s.foldl (fun a (n : Nat) =>
        if 0 ≤ Int.ofNat n ∧ Int.ofNat n < (len : Int) then setAdd a (Int.ofNat n).toNat
        else a) acc = acc ++ s := by
    intro acc
    induction s generalizing acc with
    | nil => intro _; simp
    | cons x rest ih =>
      intro hdisj
      have hof : Int.ofNat x = (x : Int) := rfl
      rw [List.foldl_cons,
        if_pos (by
          have hbx := hb x (List.mem_cons_self x rest)
          rw [hof]
          omega)]
      have hx : x ∉ acc := hdisj x (List.mem_cons_self x rest)
      have hstep : setAdd acc (Int.ofNat x).toNat = acc ++ [x] := by
        show (if (Int.ofNat x).toNat ∈ acc then acc
          else acc ++ [(Int.ofNat x).toNat]) = acc ++ [x]
        have hxx : (Int.ofNat x).toNat = x := rfl
        rw [hxx, if_neg hx]
      rw [hstep,
        ih (fun i hi => hb i (List.mem_cons_of_mem x hi)) hnd.of_cons (acc ++ [x])
          (fun y hy hmem => by
            rcases List.mem_append.mp hmem with hya | hyx
            · exact hdisj y (List.mem_cons_of_mem x hy) hya
            · rw [List.mem_singleton] at hyx
              exact (List.nodup_cons.mp hnd).1 (hyx ▸ hy))]
      simp
  rw [h9 [] (fun x _ => List.not_mem_nil x)]
  simp

/-- A lookup for an identity value carried by no item finds no positions. -/
theorem findAllIndexesBy_eq_nil (c : Collection) (v : String)
    (h : ∀ it ∈ c.items, getProp it c.idPropName ≠ some v) :
    findAllIndexesBy c c.idPropName (some v) = [] := by
  unfold findAllIndexesBy
  rw [List.filter_eq_nil_iff]
  intro i hi
  have hilt : i < c.items.length := List.mem_range.mp hi
  have hmem : c.items.getD i [] ∈ c.items := by
    rw [List.getD_eq_getElem c.items [] hilt]
    exact List.getElem_mem hilt
  intro hbeq
  exact h _ hmem (eq_of_beq hbeq)

/-- One object append through the source add call (no per-add sort): with
room available and the uniqueness check passing, the item is appended. -/
theorem add_appends (b : Collection) (it : Item)
    (hn : b.normalizeFn = none)
    (hguard : sizeGeCardinality b.items.length b.cardinality = false)
    (hex : b.unique = true → existsVal b (getProp it b.idPropName) = .ok false) :
    add b (.obj it) false = .ok ({ b with items := b.items ++ [it] }, true) := by
  have hnorm : normalizeOf b (.obj it) = it := by
    unfold normalizeOf
    rw [hn]
    rfl
  unfold add
  rw [hnorm, hguard]
  cases hu : b.unique with
  | false => rfl
  | true =>
    rw [hex hu]
    rfl

/-- The loop of addMany over already-normalized object items: every item
appends, and the count comes back as the number appended. -/
theorem addManyLoop_objs :
    ∀ (rest : List Item) (b : Collection) (k : Nat),
      b.normalizeFn = none →
      (∀ m, b.cardinality = some m → b.items.length + rest.length ≤ m) →
      (b.unique = true →
        (∀ it ∈ rest, (getProp it b.idPropName).isSome = true) ∧
        List.Pairwise (fun x y =>
          getProp x b.idPropName ≠ getProp y b.idPropName) (b.items ++ rest)) →
      addManyLoop b (rest.map JSInput.obj) k =
        .ok ({ b with items := b.items ++ rest }, k + rest.length) := by
  intro rest
  induction rest with
  | nil =>
    intro b k _ _ _
    have h1 : b.items ++ ([] : List Item) = b.items := List.append_nil _
    show Except.ok (b, k) = .ok ({ b with items := b.items ++ [] }, k + 0)
    rw [h1]
    rfl
  | cons it rest ih =>
    intro b k hn hcard huniq
    have hguard : sizeGeCardinality b.items.length b.cardinality = false := by
      cases hc : b.cardinality with
      | none => rfl
      | some m =>
        have h2 := hcard m hc
        rw [List.length_cons] at h2
        show decide (b.items.length ≥ m) = false
        rw [decide_eq_false_iff_not]
        omega
    have hex : b.unique = true →
        existsVal b (getProp it b.idPropName) = .ok false := by
      intro hu
      obtain ⟨hsome, hpw⟩ := huniq hu
      obtain ⟨v, hv⟩ :=
        Option.isSome_iff_exists.mp (hsome it (List.mem_cons_self it rest))
      rw [hv]
      show Except.ok (findIndexBy b b.idPropName (some v)).isSome = .ok false
      have hnil : findAllIndexesBy b b.idPropName (some v) = [] := by
        apply findAllIndexesBy_eq_nil
        intro x hx
        have hcross := (List.pairwise_append.mp hpw).2.2 x hx it
          (List.mem_cons_self it rest)
        rw [hv] at hcross
        exact hcross
      unfold findIndexBy
      rw [hnil]
      rfl
    have hadd := add_appends b it hn hguard hex
    show (match add b (.obj it) false with
      | .error e => .error e
      | .ok (c2, ok) =>
        addManyLoop c2 (rest.map JSInput.obj) (if ok then k + 1 else k)
      : Except Unit (Collection × Nat)) =
      .ok ({ b with items := b.items ++ it :: rest }, k + (it :: rest).length)
    rw [hadd]
    dsimp only
    have hc2 : ∀ m,
        ({ b with items := b.items ++ [it] } : Collection).cardinality = some m →
        (b.items ++ [it]).length + rest.length ≤ m := by
      intro m hm
      have h2 := hcard m hm
      rw [List.length_cons] at h2
      rw [List.length_append, List.length_singleton]
      omega
    have hu2 : ({ b with items := b.items ++ [it] } : Collection).unique = true →
        (∀ x ∈ rest, (getProp x b.idPropName).isSome = true) ∧
        List.Pairwise (fun x y =>
          getProp x b.idPropName ≠ getProp y b.idPropName)
          ((b.items ++ [it]) ++ rest) := by
      intro hu
      obtain ⟨hsome, hpw⟩ := huniq hu
      refine ⟨fun x hx => hsome x (List.mem_cons_of_mem it hx), ?_⟩
      rw [List.append_assoc, List.singleton_append]
      exact hpw
    have hstep := ih { b with items := b.items ++ [it] } (k + 1) hn hc2 hu2
    rw [if_pos rfl, hstep]
    dsimp only
    have h3 : (b.items ++ [it]) ++ rest = b.items ++ it :: rest := by
      rw [List.append_assoc, List.singleton_append]
    rw [h3, List.length_cons]
    have h4 : k + 1 + rest.length = k + (rest.length + 1) := by omega
    rw [h4]

/-- Source addMany over already-normalized object items starting from an
emptied collection with a never-configured comparator: every item is
re-added in order and the closing sort is the identity. -/
theorem addMany_objs (b : Collection) (rest : List Item)
    (hb : b.items = []) (hs : b.sortFn = none) (hn : b.normalizeFn = none)
    (hcard : ∀ m, b.cardinality = some m → rest.length ≤ m)
    (huniq : b.unique = true →
      (∀ it ∈ rest, (getProp it b.idPropName).isSome = true) ∧
      List.Pairwise (fun x y =>
        getProp x b.idPropName ≠ getProp y b.idPropName) rest) :
    addMany b (rest.map JSInput.obj) = .ok ({ b with items := rest }, rest.length) := by
  have hloop := addManyLoop_objs rest b 0 hn
    (by
      intro m hm
      rw [hb]
      simpa using hcard m hm)
    (by
      intro hu
      obtain ⟨hsome, hpw⟩ := huniq hu
      refine ⟨hsome, ?_⟩
      rw [hb, List.nil_append]
      exact hpw)
  unfold addMany
  rw [hloop]
  dsimp only
  have h0 : b.items ++ rest = rest := by
    rw [hb, List.nil_append]
  rw [h0, Nat.zero_add]
  have hsort := sortOp_default_eq { b with items := rest } hs
  rw [hsort, ite_self]

/-- The active phase of restore on a pointer-less collection keeps an
in-range dumped pointer and drops everything else. -/
theorem restoreActive_eq (c1 : Collection) (d : Dump) (hc1 : c1.activeIndex = none)
    (h : ∀ a, d.activeIndex = some a → 0 ≤ a ∧ a < (c1.items.length : Int)) :
    restoreActive c1 d = { c1 with activeIndex := d.activeIndex } := by
  unfold restoreActive
  cases hact : d.activeIndex with
  | none =>
    show c1 = { c1 with activeIndex := none }
    rw [← hc1]
  | some a =>
    dsimp only
    rw [if_pos (h a hact)]

/-- The tag-configuration phase of restore, with the fold split per field. -/
theorem restoreTagConfigs_eq (c2 : Collection) (d : Dump)
    (cfgs : List (String × JsCard)) (hd : d.tagConfigs = some cfgs) :
    restoreTagConfigs c2 d =
      { c2 with
          tagConfigs := cfgs.foldl (fun m kv => mapSet m kv.1 kv.2) c2.tagConfigs
          tags := cfgs.foldl (fun m kv =>
            if mapHas m kv.1 then m else mapSet m kv.1 []) c2.tags } := by
  unfold restoreTagConfigs
  rw [hd]
  exact foldl_record_split cfgs c2

/-- The tag-membership phase of restore, with the fold split off the record. -/
theorem restoreTags_eq (c3 : Collection) (d : Dump)
    (tgs : List (String × List Int)) (hd : d.tags = some tgs) :
    restoreTags c3 d =
      { c3 with tags := tgs.foldl (fun m kv =>
          mapSet m kv.1 (buildTagSet kv.2 c3.items.length)) c3.tags } := by
  unfold restoreTags
  rw [hd]
  exact foldl_tags_split tgs c3

/-- Projection of a restore result: the stored configuration of one tag. -/
def restoreConfigResult (e : Except String (Collection × Bool)) (t : String) :
    Option (Option JsCard) :=
  match e with
  | .ok (c2, _) => some (mapGet c2.tagConfigs t)
  | .error _ => none

/-- C7 counterexample: the fixture configures the tag "foo" with cardinality
Infinity, but the dump serializes Infinity as JSON null, so the restored
collection stores the null configuration instead — the tag configurations
are not reproduced, contradicting the unqualified round-trip claim. -/
theorem restore_dump_infinity_config_counterexample :
    mapGet abcFixture.tagConfigs "foo" = some JsCard.inf ∧
    restoreConfigResult (restore abcFixture (.dump (dumpRT abcFixture))) "foo" =
      some (some JsCard.null) := by
  exact ⟨rfl, rfl⟩

/-- C7 (corrected): for a collection in the reachable shape — default
comparator and normalizer, size within the collection cardinality, unique
collections carrying distinct identity values, an in-range pointer,
in-range duplicate-free tag sets with duplicate-free key lists, and all tag
cardinalities finite — restoring the collection's own dump succeeds and
reproduces the items in order, the active position, every observable tag
membership, every tag configuration, and the scalar configuration.  (An
Infinity tag cardinality is excluded: it restores as null, see the
counterexample; and a non-unique collection with duplicate identity values
keeps its duplicates on restore, because restore copies the unique flag
before re-adding, so the collapse the claim describes happens only when the
unique flag was enabled after duplicates were inserted.) -/
theorem restore_dump_roundtrip (c : Collection)
    (hs : c.sortFn = none) (hn : c.normalizeFn = none)
    (hcard : ∀ m, c.cardinality = some m → c.items.length ≤ m)
    (huniq : c.unique = true →
      (∀ it ∈ c.items, (getProp it c.idPropName).isSome = true) ∧
      List.Pairwise (fun x y =>
        getProp x c.idPropName ≠ getProp y c.idPropName) c.items)
    (hptr : ∀ a, c.activeIndex = some a → 0 ≤ a ∧ a < (c.items.length : Int))
    (htags : ∀ kv ∈ c.tags, ∀ i ∈ kv.2, i < c.items.length)
    (hndt : ∀ kv ∈ c.tags, kv.2.Nodup)
    (htk : (c.tags.map Prod.fst).Nodup)
    (hck : (c.tagConfigs.map Prod.fst).Nodup)
    (hfin : ∀ kv ∈ c.tagConfigs, ∃ n, kv.2 = JsCard.num n) :
    ∃ c2, restore c (.dump (dumpRT c)) = .ok (c2, true) ∧
      c2.items = c.items ∧
      c2.activeIndex = c.activeIndex ∧
      (∀ t, tagIndexes c2 t = tagIndexes c t) ∧
      (∀ t, mapGet c2.tagConfigs t = mapGet c.tagConfigs t) ∧
      c2.cardinality = c.cardinality ∧
      c2.unique = c.unique ∧
      c2.idPropName = c.idPropName := by
  have hA : addMany (clear c) (c.items.map JSInput.obj) =
      .ok ({ clear c with items := c.items }, c.items.length) :=
    addMany_objs (clear c) c.items rfl hs hn hcard huniq
  have hdump : restoreDump c (dumpRT c) =
      .ok (restoreTags (restoreTagConfigs
        (restoreActive { clear c with items := c.items } (dumpRT c))
        (dumpRT c)) (dumpRT c)) := by
    unfold restoreDump
    have hit : (dumpRT c).items = some (c.items.map JSInput.obj) := rfl
    rw [hit]
    dsimp only
    rw [restoreScalars_dumpRT, hA]
  have hrestore : restore c (.dump (dumpRT c)) =
      .ok (restoreTags (restoreTagConfigs
        (restoreActive { clear c with items := c.items } (dumpRT c))
        (dumpRT c)) (dumpRT c), true) := by
    unfold restore
    dsimp only
    rw [hdump]
  have hB : restoreActive { clear c with items := c.items } (dumpRT c) =
      { clear c with
          items := c.items
          activeIndex := c.activeIndex } :=
    restoreActive_eq { clear c with items := c.items } (dumpRT c) rfl hptr
  have hcfgs : c.tagConfigs.map (fun kv =>
      (kv.1, match kv.2 with
             | JsCard.num n => JsCard.num n
             | JsCard.inf => JsCard.null
             | JsCard.null => JsCard.null)) = c.tagConfigs := by
    have h1 : c.tagConfigs.map (fun kv =>
        (kv.1, match kv.2 with
               | JsCard.num n => JsCard.num n
               | JsCard.inf => JsCard.null
               | JsCard.null => JsCard.null)) = c.tagConfigs.map id := by
      apply List.map_congr_left
      intro kv hkv
      obtain ⟨n, hn2⟩ := hfin kv hkv
      obtain ⟨k1, k2⟩ := kv
      dsimp only at hn2 ⊢
      rw [hn2]
      rfl
    rw [h1, List.map_id]
  have hdc : (dumpRT c).tagConfigs = some c.tagConfigs := by
    have h1 := congrArg Option.some hcfgs
    exact h1
  have hdt : (dumpRT c).tags =
      some (c.tags.map (fun kv => (kv.1, kv.2.map Int.ofNat))) := rfl
  refine ⟨_, hrestore, ?_, ?_, ?_, ?_, ?_, ?_, ?_⟩
  · rw [hB, restoreTagConfigs_eq _ _ _ hdc, restoreTags_eq _ _ _ hdt]
  · rw [hB, restoreTagConfigs_eq _ _ _ hdc, restoreTags_eq _ _ _ hdt]
  · -- tag memberships
    intro t
    rw [hB, restoreTagConfigs_eq _ _ _ hdc, restoreTags_eq _ _ _ hdt]
    unfold tagIndexes
    dsimp only [clear]
    have hnd2 : (((c.tags.map (fun kv => (kv.1, kv.2.map Int.ofNat))).map
        (fun kv => (kv.1, buildTagSet kv.2 c.items.length))).map Prod.fst).Nodup := by
      rw [map_fst_map_val, map_fst_map_val]
      exact htk
    rw [mapGet_foldl_mapSetG (fun kv => buildTagSet kv.2 c.items.length)
      (c.tags.map (fun kv => (kv.1, kv.2.map Int.ofNat))) _ t hnd2]
    rw [find?_map_keyval (fun kv => kv.2.map Int.ofNat) c.tags t]
    cases hf : c.tags.find? (fun kv => kv.1 == t) with
    | some kv0 =>
      have hmem := List.mem_of_find?_eq_some hf
      have hmg : mapGet c.tags t = some kv0.2 := by
        unfold mapGet
        rw [hf]
        rfl
      have hbts : buildTagSet (kv0.2.map Int.ofNat) c.items.length = kv0.2 :=
        buildTagSet_roundtrip kv0.2 c.items.length (htags kv0 hmem) (hndt kv0 hmem)
      rw [hmg]
      exact hbts
    | none =>
      have hmg : mapGet c.tags t = none := by
        unfold mapGet
        rw [hf]
        rfl
      rw [hmg]
      show (mapGet (c.tagConfigs.foldl (fun m kv =>
          if mapHas m kv.1 then m else mapSet m kv.1 [])
          (c.tags.map (fun kv => (kv.1, [])))) t).getD [] =
        Option.getD none []
      rw [mapGet_foldl_ensure c.tagConfigs _ t]
      have hbase : mapGet (c.tags.map (fun kv => (kv.1, ([] : List Nat)))) t =
          none := by
        have h5 := mapGet_map_val (fun _ : List Nat => ([] : List Nat)) c.tags t
        rw [hmg] at h5
        exact h5
      rw [hbase]
      cases c.tagConfigs.any (fun kv => kv.1 == t) <;> rfl
  · -- tag configurations
    intro t
    rw [hB, restoreTagConfigs_eq _ _ _ hdc, restoreTags_eq _ _ _ hdt]
    dsimp only [clear]
    have hnd1 : ((c.tagConfigs.map (fun kv => (kv.1, kv.2))).map Prod.fst).Nodup := by
      rw [map_fst_map_val]
      exact hck
    rw [mapGet_foldl_mapSetG (fun kv => kv.2) c.tagConfigs _ t hnd1]
    show (mapGet c.tagConfigs t).or (mapGet c.tagConfigs t) = mapGet c.tagConfigs t
    exact Option.or_self
  · rw [hB, restoreTagConfigs_eq _ _ _ hdc, restoreTags_eq _ _ _ hdt]
    rfl
  · rw [hB, restoreTagConfigs_eq _ _ _ hdc, restoreTags_eq _ _ _ hdt]
    rfl
  · rw [hB, restoreTagConfigs_eq _ _ _ hdc, restoreTags_eq _ _ _ hdt]
    rfl

/-- A well-formed fixture with a finite tag cardinality, witnessing the dump
round trip. -/
def rtFixture : Collection :=
  { items := [[("id", "a")], [("id", "b")], [("id", "c")]]
    activeIndex := some 1
    tags := [("foo", [0, 1])]
    tagConfigs := [("foo", JsCard.num 2)] }

/-- The dump round trip at the concrete fixture. -/
theorem restore_dump_roundtrip_witness :
    ∃ c2, restore rtFixture (.dump (dumpRT rtFixture)) = .ok (c2, true) ∧
      c2.items = rtFixture.items ∧
      c2.activeIndex = rtFixture.activeIndex ∧
      (∀ t, tagIndexes c2 t = tagIndexes rtFixture t) ∧
      (∀ t, mapGet c2.tagConfigs t = mapGet rtFixture.tagConfigs t) ∧
      c2.cardinality = rtFixture.cardinality ∧
      c2.unique = rtFixture.unique ∧
      c2.idPropName = rtFixture.idPropName :=
  restore_dump_roundtrip rtFixture rfl rfl
    (fun _ hm => Option.noConfusion hm)
    (fun _ => ⟨by decide, by decide⟩)
    (fun a ha => by
      injection ha with h1
      subst h1
      decide)
    (by decide) (by decide) (by decide) (by decide)
    (fun kv hkv => ⟨2, by rw [List.mem_singleton.mp hkv]⟩)

end ItemCollection
